import Mathlib

/-!
Verification of the gh-store storage engine against its specification.

The development shallowly embeds the Python source of the repository:
JSON documents become an inductive type, the tracker (GitHub Issues)
becomes an explicit state record, and each store operation becomes a
Lean function translated from the corresponding Python function.
Python exceptions are modelled with Option/Except results.
-/

/-- JSON values, as produced by Python's json.loads: objects are ordered
association lists (Python dicts preserve insertion order). -/
inductive Json where
  | null : Json
  | bool (b : Bool) : Json
  | num (n : Int) : Json
  | str (s : String) : Json
  | arr (elems : List Json) : Json
  | obj (fields : List (String × Json)) : Json

/-- Python's `key in result` / `result[key]` on a dict: the value at the
first matching key, if present. -/
def lookupField (fs : List (String × Json)) (k : String) : Option Json :=
  match fs with
  | [] => none
  | (k', v) :: rest => if k' = k then some v else lookupField rest k

/-- Python's `result[key] = value` on a dict: replace the value at an
existing key in place, else append the key at the end. -/
def setField (fs : List (String × Json)) (k : String) (v : Json) :
    List (String × Json) :=
  match fs with
  | [] => [(k, v)]
  | (k', v') :: rest =>
      if k' = k then (k, v) :: rest else (k', v') :: setField rest k v

mutual
/-- The per-key action of CanonicalStore._deep_merge
(src/gh_store/tools/canonicalize.py lines 300-304): when the key is
present in the accumulated result and both sides are dicts, recurse;
otherwise the update value wins. -/
def mergeValue : Option Json → Json → Json
  | some (Json.obj bf), Json.obj uf => Json.obj (deep_merge bf uf)
  | _, v => v

/-- CanonicalStore._deep_merge (src/gh_store/tools/canonicalize.py
lines 296-306): `result = base.copy()`, then for each key/value of the
update, merge recursively when both sides are dicts and replace
otherwise. -/
def deep_merge : List (String × Json) → List (String × Json) →
    List (String × Json)
  | base, [] => base
  | base, (k, v) :: rest =>
      deep_merge (setField base k (mergeValue (lookupField base k) v)) rest
end

/-- The keys of an object, in order. -/
def fieldKeys (fs : List (String × Json)) : List String := fs.map Prod.fst

mutual
/-- Well-formed JSON: every object (recursively) has no duplicate keys,
as is automatic for values produced by json.loads. Array elements are
never merged into, so they are not constrained. -/
def Json.wfB : Json → Bool
  | Json.obj fs => decide (fieldKeys fs).Nodup && wfFieldsB fs
  | _ => true

/-- All values of a field list are well-formed. -/
def wfFieldsB : List (String × Json) → Bool
  | [] => true
  | (_, v) :: rest => Json.wfB v && wfFieldsB rest
end

/-- Well-formed field list: no duplicate keys, well-formed values. -/
def wfF (fs : List (String × Json)) : Bool :=
  decide (fieldKeys fs).Nodup && wfFieldsB fs

/-- Left fold of deep merges: the state after consuming a batch of
append-mode payloads. -/
def mergeAll : List (String × Json) → List (List (String × Json)) →
    List (String × Json)
  | x, [] => x
  | x, u :: us => mergeAll (deep_merge x u) us

/-- The evolution of a single key's value under a chain of update values
hitting that key. -/
def chainVal : Option Json → List Json → Option Json
  | c, [] => c
  | c, u :: us => chainVal (some (mergeValue c u)) us

/-- The values a given key receives across a batch of payloads. -/
def projAt (k : String) (us : List (List (String × Json))) : List Json :=
  us.filterMap (fun u => lookupField u k)

/-- An update operation as replayed by process_with_virtual_merge
(src/gh_store/tools/canonicalize.py lines 263-266), restricted to
object payloads (the states that keep the replay loop crash-free). -/
inductive MergeOp where
  | append (u : List (String × Json)) : MergeOp
  | replace (r : List (String × Json)) : MergeOp

/-- Apply one update operation to an object state. -/
def applyOp (x : List (String × Json)) : MergeOp → List (String × Json)
  | MergeOp.append u => deep_merge x u
  | MergeOp.replace r => r

/-- Apply a batch of update operations in order. -/
def applyOps (x : List (String × Json)) : List MergeOp →
    List (String × Json)
  | [] => x
  | op :: rest => applyOps (applyOp x op) rest

/-- The payload of an operation is well-formed. -/
def wfOp : MergeOp → Bool
  | MergeOp.append u => wfF u
  | MergeOp.replace r => wfF r

/-- Python `self._deep_merge(current_state, update_data)` including its
crash behaviour: only dict/dict succeeds (list-typed bases survive only
an empty update dict because `.copy()` exists but string keys cannot be
assigned; scalars crash at `.copy()`; non-dict updates crash at
`.items()`). A crash is `none`. -/
def pyDeepMerge : Json → Json → Option Json
  | Json.obj bf, Json.obj uf => some (Json.obj (deep_merge bf uf))
  | Json.arr xs, Json.obj [] => some (Json.arr xs)
  | _, _ => none

/-- Lines 254-266 of src/gh_store/tools/canonicalize.py: extract
`update_data` and `update_mode` from the comment body (modern envelope
or legacy raw payload) and apply it; modes other than append/replace
leave the state unchanged; `none` models a Python exception. -/
def applyUserComment (state : Json) (dfs : List (String × Json)) :
    Option Json :=
  match lookupField dfs "_data" with
  | some ud =>
      match lookupField dfs "_meta" with
      | none => pyDeepMerge state ud
      | some (Json.obj mfs) =>
          match lookupField mfs "update_mode" with
          | none => pyDeepMerge state ud
          | some (Json.str s) =>
              if s = "append" then pyDeepMerge state ud
              else if s = "replace" then some ud
              else some state
          | some _ => some state
      | some _ => none
  | none => pyDeepMerge state (Json.obj dfs)

/-- One iteration of the replay loop of process_with_virtual_merge
(src/gh_store/tools/canonicalize.py lines 246-266): skip initial-state
and system comments, then apply the update. `data.get("type", "")`
crashes (`none`) when the stored type is present but not a string. -/
def stepComment (state : Json) (data : Json) : Option Json :=
  match data with
  | Json.obj dfs =>
      match lookupField dfs "type" with
      | some (Json.str s) =>
          if s = "initial_state" then some state
          else if s.startsWith "system_" then some state
          else applyUserComment state dfs
      | some _ => none
      | none => applyUserComment state dfs
  | _ => none

/-- Replay a sequence of comment bodies onto a state, as the loop of
process_with_virtual_merge does; a crash anywhere crashes the replay. -/
def applySeq (state : Json) : List Json → Option Json
  | [] => some state
  | c :: rest =>
      match stepComment state c with
      | none => none
      | some s2 => applySeq s2 rest

/-- The operation denoted by a comment body that the replay loop
actually applies: a user envelope in append or replace mode carrying an
object payload, or a legacy raw object payload (implicit append). -/
def envUserOp (dfs : List (String × Json)) : Option MergeOp :=
  match lookupField dfs "_data" with
  | some (Json.obj udf) =>
      match lookupField dfs "_meta" with
      | none => some (MergeOp.append udf)
      | some (Json.obj mfs) =>
          match lookupField mfs "update_mode" with
          | none => some (MergeOp.append udf)
          | some (Json.str s) =>
              if s = "append" then some (MergeOp.append udf)
              else if s = "replace" then some (MergeOp.replace udf)
              else none
          | some _ => none
      | some _ => none
  | some _ => none
  | none => some (MergeOp.append dfs)

/-- A valid consumable envelope: an object comment body whose type does
not mark it as initial state or system, denoting an append or replace
of an object payload. -/
def envOp (data : Json) : Option MergeOp :=
  match data with
  | Json.obj dfs =>
      match lookupField dfs "type" with
      | some (Json.str s) =>
          if s = "initial_state" then none
          else if s.startsWith "system_" then none
          else envUserOp dfs
      | some _ => none
      | none => envUserOp dfs
  | _ => none

/-- Whether a JSON value is an object. -/
def Json.isObjB : Json → Bool
  | Json.obj _ => true
  | _ => false

/-- The field lists of the object values in a list. -/
def objFields (ps : List Json) : List (List (String × Json)) :=
  ps.filterMap (fun p =>
    match p with
    | Json.obj f => some f
    | _ => none)

/-- The operations a sequence of comment bodies denotes. -/
def denoteOps (s : List Json) : List MergeOp := s.filterMap envOp

/-- A concrete append-mode envelope setting key "a" to 1. -/
def envA1 : Json :=
  Json.obj [("_data", Json.obj [("a", Json.num 1)]),
    ("_meta", Json.obj [("update_mode", Json.str "append")])]

/-- A concrete append-mode envelope setting key "a" to 2. -/
def envA2 : Json :=
  Json.obj [("_data", Json.obj [("a", Json.num 2)]),
    ("_meta", Json.obj [("update_mode", Json.str "append")])]

/-- An update parsed from one unprocessed comment (gh_store/core/types.py
Update: comment_id, timestamp, changes), extended with the number of the
issue the comment sits on, which process_updates later re-derives by
matching comment ids; timestamps are abstracted to naturals. -/
structure Update where
  comment_id : Nat
  source_issue : Nat
  timestamp : Nat
  changes : Json

/-- Insert an element into a timestamp-sorted list after every element
with timestamp less than or equal to its own: the insertion step of a
stable ascending sort. -/
def insertByTs (u : Update) : List Update → List Update
  | [] => [u]
  | v :: rest =>
      if v.timestamp ≤ u.timestamp then v :: insertByTs u rest
      else u :: v :: rest

/-- Stable ascending sort by timestamp. Extensionally this is Python's
`updates.sort(key=lambda u: u.timestamp)` from
GitHubStore.process_updates (src/gh_store/core/store.py line 119): a
stable sort's output is uniquely determined by the key order. -/
def sortByTs (l : List Update) : List Update :=
  l.foldl (fun acc u => insertByTs u acc) []

/-- The order in which GitHubStore.process_updates applies updates on a
canonical anchor (src/gh_store/core/store.py lines 97-119): the
anchor's unprocessed updates in collection order, extended with each
alias's unprocessed updates in alias-enumeration order, then sorted
stably by timestamp only. -/
def canonicalProcessOrder (anchorUpdates : List Update)
    (aliasUpdates : List (List Update)) : List Update :=
  sortByTs (anchorUpdates ++ aliasUpdates.flatten)

/-- Concrete anchor-issue update: comment 10 on issue 5, timestamp 100. -/
def cexUpdateAnchor : Update := ⟨10, 5, 100, Json.null⟩

/-- Concrete alias-issue update: comment 7 on issue 2, timestamp 100. -/
def cexUpdateAlias : Update := ⟨7, 2, 100, Json.null⟩

/-- Prefix test on the underlying character lists (Python str.startswith). -/
def strStartsWith (p s : String) : Bool := p.data.isPrefixOf s.data

/-- Label-pattern matching for tracker queries: a trailing star matches
any remainder (the wildcard form "ALIAS-TO:*" that
resolve_canonical_object_id passes to the issue query, with the
semantics the repository's test doubles give it); otherwise literal. -/
def patMatch : List Char → List Char → Bool
  | [], [] => true
  | ['*'], _ => true
  | p :: ps, c :: cs => p == c && patMatch ps cs
  | _, _ => false

/-- Whether a label matches a query label pattern. -/
def labelMatches (pat l : String) : Bool := patMatch pat.data l.data

/-- Tracker state filter: "all" matches both states, otherwise the
state string must match exactly. -/
def stateMatches (filter state : String) : Bool :=
  filter == "all" || filter == state

/-- Drop the first n characters of a string (Python s[n:]). -/
def stripChars (n : Nat) (s : String) : String := String.mk (s.data.drop n)

/-- Split a character list on colons (Python str.split(":")). -/
def splitColon : List Char → List Char → List (List Char)
  | [], cur => [cur.reverse]
  | c :: rest, cur =>
      if c == ':' then cur.reverse :: splitColon rest []
      else splitColon rest (c :: cur)

/-- The second colon-separated field of a label, if any
(Python label.split(":")[1], raising IndexError when absent). -/
def labelSecondField (l : String) : Option String :=
  match splitColon l.data [] with
  | _ :: second :: _ => some (String.mk second)
  | _ => none

/-- Parse a non-empty all-digit character list as a natural number
(Python int(...), ValueError modelled as none). -/
def digitsToNat : List Char → Option Nat
  | [] => none
  | cs =>
      cs.foldl
        (fun acc c =>
          match acc with
          | none => none
          | some n => if c.isDigit then some (n * 10 + (c.toNat - 48)) else none)
        (some 0)

/-- A comment on a tracker issue, as exposed by the tracker gateway:
id, author login, decoded JSON body (none when the body is not JSON),
creation time, and the set of reactions. Times are naturals. -/
structure GComment where
  id : Nat
  author : Option String
  body : Option Json
  created_at : Nat
  reactions : List String

/-- An issue on the tracker: number, creator login, state ("open" or
"closed", as the tracker's string), labels, decoded JSON body (none
when not JSON), comments, creation and update time. -/
structure GIssue where
  number : Nat
  creator : Option String
  state : String
  labels : List String
  body : Option Json
  comments : List GComment
  created_at : Nat
  updated_at : Nat

/-- The tracker repository: its issues and a clock used to stamp new
issues and comments. -/
structure Tracker where
  issues : List GIssue
  now : Nat

/-- repo.get_issues(labels=..., state=...): the issues whose state
matches the filter and whose labels match every query pattern. -/
def getIssues (t : Tracker) (labels : List String) (state : String) :
    List GIssue :=
  t.issues.filter (fun i =>
    stateMatches state i.state &&
      labels.all (fun pat => i.labels.any (fun l => labelMatches pat l)))

/-- repo.get_issue(number). -/
def getIssue (t : Tracker) (n : Nat) : Option GIssue :=
  t.issues.find? (fun i => i.number == n)

/-- Apply an edit to the issue with the given number. -/
def editIssue (t : Tracker) (n : Nat) (f : GIssue → GIssue) : Tracker :=
  Tracker.mk (t.issues.map (fun i => if i.number == n then f i else i)) t.now

/-- The next issue number the tracker will assign. -/
def nextIssueNumber (t : Tracker) : Nat :=
  (t.issues.map (fun i => i.number)).foldr max 0 + 1

/-- The next comment id the tracker will assign. -/
def nextCommentId (t : Tracker) : Nat :=
  ((t.issues.map (fun i => i.comments.map (fun c => c.id))).flatten).foldr
    max 0 + 1

/-- issue.create_comment(body): append a comment with the given JSON
body; the authoring login of the store's own token is not modelled. -/
def addComment (t : Tracker) (n : Nat) (body : Json) : Tracker :=
  editIssue t n (fun i =>
    GIssue.mk i.number i.creator i.state i.labels i.body
      (i.comments ++ [GComment.mk (nextCommentId t) none (some body) t.now []])
      i.created_at t.now)

/-- The error kinds surfaced by the store
(gh_store/core/exceptions.py); valueError stands for Python's built-in
ValueError and uncaught tracker errors. -/
inductive StoreErr where
  | objectNotFound : StoreErr
  | duplicateUid : StoreErr
  | concurrentUpdate : StoreErr
  | accessDenied : StoreErr
  | valueError : StoreErr
deriving DecidableEq

/-- Object metadata as constructed throughout handlers/issue.py:
ObjectMeta(object_id=..., label=..., created_at=..., updated_at=...,
version=...). -/
structure ObjectMeta where
  object_id : String
  label : String
  created_at : Nat
  updated_at : Nat
  version : Nat

/-- A stored object: metadata plus the JSON document. -/
structure StoredObject where
  meta : ObjectMeta
  data : Json

/-- gh_store/core/version.py fallback CLIENT_VERSION. -/
def CLIENT_VERSION : String := "0.5.1"

/-- CommentMeta (gh_store/core/types.py): client version, timestamp
string, update mode. -/
structure CommentMeta where
  client_version : String
  timestamp : String
  update_mode : String

/-- CommentPayload (gh_store/core/types.py): the envelope every update
comment serializes. -/
structure CommentPayload where
  _data : Json
  _meta : CommentMeta
  type : Option String

/-- CommentPayload.to_dict (gh_store/core/types.py lines 72-78): the
"type" key is omitted when the type is None. -/
def CommentPayload.to_dict (p : CommentPayload) : Json :=
  Json.obj
    ([("_data", p._data),
      ("_meta", Json.obj
        [("client_version", Json.str p._meta.client_version),
          ("timestamp", Json.str p._meta.timestamp),
          ("update_mode", Json.str p._meta.update_mode)])] ++
      (match p.type with
        | some ty => [("type", Json.str ty)]
        | none => []))

/-- Dictionary access on a JSON value: the value at a key of an object. -/
def jsonGet (j : Json) (k : String) : Option Json :=
  match j with
  | Json.obj fs => lookupField fs k
  | _ => none

/-- The authorization environment: the repository owner's login and the
set of CODEOWNERS logins (gh_store/core/access.py). -/
structure AccessEnv where
  owner : String
  codeowners : List String

/-- A coroutine object, as returned by calling an async def without
awaiting it: the wrapped computation is carried but has not run. -/
structure Coroutine (α : Type) where
  run : α

/-- A coroutine object is truthy in Python regardless of its result:
`not coro` is False. -/
def Coroutine.truthy {α : Type} : Coroutine α → Bool := fun _ => true

/-- AccessControl._is_authorized (src/gh_store/core/access.py lines
82-94): the owner and CODEOWNERS members are authorized, a missing
login is not. -/
def is_authorized (env : AccessEnv) (username : Option String) : Bool :=
  match username with
  | none => false
  | some u => u == env.owner || env.codeowners.contains u

/-- AccessControl.validate_issue_creator (src/gh_store/core/access.py
lines 96-106). It is an async def: calling it returns a coroutine
wrapping the authorization check. -/
def validate_issue_creator (env : AccessEnv) (issue : GIssue) :
    Coroutine Bool :=
  Coroutine.mk (is_authorized env issue.creator)

/-- The first parseable ALIAS-TO:n label of an issue, as the redirect
loops of store.py and handlers/issue.py find it: labels without the
tag, or whose number does not parse, are passed over. -/
def findRedirectTarget (issue : GIssue) : Option Nat :=
  issue.labels.findSome? (fun l =>
    if strStartsWith "ALIAS-TO:" l then
      match labelSecondField l with
      | some s => digitsToNat s.data
      | none => none
    else none)

/-- The alias target id of an object id, as
CanonicalStore.resolve_canonical_object_id reads it: the first
ALIAS-TO label of the first issue carrying both the uid label and an
ALIAS-TO label, with the id taken verbatim after the tag. -/
def aliasStep (t : Tracker) (object_id : String) : Option String :=
  (getIssues t ["UID:" ++ object_id, "ALIAS-TO:*"] "all").findSome?
    (fun issue => issue.labels.findSome? (fun l =>
      if strStartsWith "ALIAS-TO:" l then some (stripChars 9 l) else none))

/-- CanonicalStore.resolve_canonical_object_id
(src/gh_store/tools/canonicalize.py lines 73-114): on exhausted depth
return the current id; on a self-referential alias return the current
id; otherwise follow the alias chain with one less unit of depth. -/
def resolve_canonical_object_id (t : Tracker) (object_id : String) :
    Nat → String
  | 0 => object_id
  | d + 1 =>
      match aliasStep t object_id with
      | some canonical_id =>
          if canonical_id = object_id then object_id
          else resolve_canonical_object_id t canonical_id d
      | none => object_id

/-- The id reached after at most k alias hops from an id (stopping
where no alias issue exists). -/
def chainFrom (t : Tracker) (object_id : String) : Nat → String
  | 0 => object_id
  | k + 1 =>
      match aliasStep t (chainFrom t object_id k) with
      | some c => c
      | none => chainFrom t object_id k

/-- IssueHandler.get_object_id_from_labels
(src/gh_store/handlers/issue.py lines 296-318): the first label other
than the base label that starts with the uid tag, stripped of it. -/
def get_object_id_from_labels (issue : GIssue) : Option String :=
  issue.labels.findSome? (fun l =>
    if l == "stored-object" then none
    else if strStartsWith "UID:" l then some (stripChars 4 l)
    else none)

/-- IssueHandler.get_object_by_number (src/gh_store/handlers/issue.py
lines 320-353): follow an alias redirect when one parses (falling back
to the alias itself when the redirect fails), then build the object
from the issue body; the meta's label field receives the bare object id
as in the source. none models the uncaught Python exceptions (missing
issue, unparseable body, no uid label) and redirect recursion that runs
out of fuel. -/
def get_object_by_number (t : Tracker) (issue_number : Nat) :
    Nat → Option StoredObject
  | 0 => none
  | fuel + 1 =>
      match getIssue t issue_number with
      | none => none
      | some issue =>
          let redirected : Option StoredObject :=
            if issue.labels.any (fun l => l == "alias-object") then
              match findRedirectTarget issue with
              | some n => get_object_by_number t n fuel
              | none => none
            else none
          match redirected with
          | some obj => some obj
          | none =>
              match get_object_id_from_labels issue with
              | none => none
              | some object_id =>
                  match issue.body with
                  | none => none
                  | some data =>
                      some (StoredObject.mk
                        (ObjectMeta.mk object_id object_id
                          issue.created_at issue.updated_at
                          (issue.comments.length + 1))
                        data)

/-- IssueHandler.update_issue_body (src/gh_store/handlers/issue.py
lines 355-363): write the object data as the body and close. -/
def update_issue_body (t : Tracker) (issue_number : Nat)
    (obj : StoredObject) : Tracker :=
  editIssue t issue_number (fun i =>
    GIssue.mk i.number i.creator "closed" i.labels (some obj.data)
      i.comments i.created_at t.now)

/-- Modelled from the spec: the comment codec's system/initial-state
discrimination (CommentHandler is not under src/; spec sections 4.2 and
4.5 step 4): a comment is skipped when its type is initial_state or
starts with system_, or when _meta.system is true. -/
def isSystemType (data : Json) : Bool :=
  match data with
  | Json.obj dfs =>
      (match lookupField dfs "type" with
        | some (Json.str s) => s == "initial_state" || strStartsWith "system_" s
        | _ => false) ||
      (match lookupField dfs "_meta" with
        | some (Json.obj mfs) =>
            match lookupField mfs "system" with
            | some (Json.bool true) => true
            | _ => false
        | _ => false)
  | _ => false

/-- Modelled from the spec: effectiveTimestamp (CommentHandler is not
under src/; spec section 4.2): prefer the envelope's _meta.timestamp,
fall back to the tracker-reported creation time; timestamp strings are
abstracted to naturals. -/
def effTimestamp (c : GComment) (data : Json) : Nat :=
  match data with
  | Json.obj dfs =>
      match lookupField dfs "_meta" with
      | some (Json.obj mfs) =>
          match lookupField mfs "timestamp" with
          | some (Json.num n) => n.toNat
          | _ => c.created_at
      | _ => c.created_at
  | _ => c.created_at

/-- Modelled from the spec: CommentHandler.get_unprocessed_updates (the
comment handler module is not under src/; spec section 4.5 steps 3-4):
the issue's comments in tracker order, dropping comments already
bearing the processed reaction, comments by unauthorized authors,
malformed bodies, and system or initial-state envelopes. -/
def get_unprocessed_updates (env : AccessEnv) (t : Tracker)
    (issue_number : Nat) : List Update :=
  match getIssue t issue_number with
  | none => []
  | some issue =>
      issue.comments.filterMap (fun c =>
        if c.reactions.any (fun r => r == "+1") then none
        else if is_authorized env c.author = false then none
        else
          match c.body with
          | none => none
          | some data =>
              if isSystemType data then none
              else some (Update.mk c.id issue_number (effTimestamp c data) data))

/-- Modelled from the spec: CommentHandler.apply_update (not under
src/; spec sections 4.2 and 4.5 step 6): extract the payload and mode
(legacy raw payloads are appends), then replace the state or
recursively merge object payloads. -/
def apply_update (obj : StoredObject) (u : Update) : StoredObject :=
  let specMerge : Json → Json → Json := fun b up =>
    match b, up with
    | Json.obj bf, Json.obj uf => Json.obj (deep_merge bf uf)
    | _, _ => up
  match u.changes with
  | Json.obj dfs =>
      match lookupField dfs "_data" with
      | some payload =>
          let mode :=
            match lookupField dfs "_meta" with
            | some (Json.obj mfs) =>
                match lookupField mfs "update_mode" with
                | some (Json.str s) => s
                | _ => "append"
            | _ => "append"
          if mode == "replace" then StoredObject.mk obj.meta payload
          else StoredObject.mk obj.meta (specMerge obj.data payload)
      | none => StoredObject.mk obj.meta (specMerge obj.data (Json.obj dfs))
  | other => StoredObject.mk obj.meta (specMerge obj.data other)

/-- Modelled from the spec: CommentHandler.mark_processed (not under
src/; spec section 4.5 step 8): add the processed reaction to each
consumed comment of the issue. -/
def mark_processed (t : Tracker) (issue_number : Nat)
    (ups : List Update) : Tracker :=
  editIssue t issue_number (fun i =>
    GIssue.mk i.number i.creator i.state i.labels i.body
      (i.comments.map (fun c =>
        if ups.any (fun u => u.comment_id == c.id) then
          GComment.mk c.id c.author c.body c.created_at
            (c.reactions ++ ["+1"])
        else c))
      i.created_at i.updated_at)

/-- Modelled from the spec: IssueHandler.find_aliases (not under src/;
spec section 4.6): the numbers of the issues labelled ALIAS-TO:n. -/
def find_aliases (t : Tracker) (issue_number : Nat) : List Nat :=
  (getIssues t ["ALIAS-TO:" ++ Nat.repr issue_number] "all").map
    (fun i => i.number)

/-- GitHubStore.process_updates (src/gh_store/core/store.py lines
71-149). The creator check calls the async validate_issue_creator
without awaiting it, so the truthy coroutine never triggers
AccessDeniedError - for the anchor at line 76 and for each alias at
line 109 alike. Alias redirects recurse on fuel; exhausted fuel models
Python's recursion limit, and valueError models the uncaught
exceptions of body parsing. -/
def process_updates (env : AccessEnv) (t : Tracker) (issue_number : Nat) :
    Nat → Tracker × Except StoreErr StoredObject
  | 0 => (t, Except.error StoreErr.valueError)
  | fuel + 1 =>
      match getIssue t issue_number with
      | none => (t, Except.error StoreErr.objectNotFound)
      | some issue =>
          if (validate_issue_creator env issue).truthy = false then
            (t, Except.error StoreErr.accessDenied)
          else
            let is_canonical :=
              issue.labels.any (fun l => l == "canonical-object")
            match (if is_canonical then none else findRedirectTarget issue) with
            | some n => process_updates env t n fuel
            | none =>
                let base_updates := get_unprocessed_updates env t issue_number
                let alias_numbers :=
                  if is_canonical then find_aliases t issue_number else []
                let all_updates :=
                  if is_canonical then
                    sortByTs (base_updates ++
                      (alias_numbers.map (fun an =>
                        match getIssue t an with
                        | none => []
                        | some ai =>
                            if (validate_issue_creator env ai).truthy = false
                            then []
                            else get_unprocessed_updates env t an)).flatten)
                  else base_updates
                match get_object_by_number t issue_number fuel with
                | none => (t, Except.error StoreErr.valueError)
                | some obj =>
                    let final := all_updates.foldl apply_update obj
                    let t2 := update_issue_body t issue_number final
                    let t3 := mark_processed t2 issue_number all_updates
                    let t4 := alias_numbers.foldl
                      (fun acc an => mark_processed acc an all_updates) t3
                    (t4, Except.ok final)

/-- The initial-state comment create_object posts, already carrying the
processed and initial-state reactions
(src/gh_store/handlers/issue.py lines 70-85). -/
def mkInitialComment (t : Tracker) (data : Json) : GComment :=
  GComment.mk (nextCommentId t) none
    (some (CommentPayload.to_dict
      (CommentPayload.mk data
        (CommentMeta.mk CLIENT_VERSION (Nat.repr t.now) "append")
        (some "initial_state"))))
    t.now ["+1", "rocket"]

/-- The anchor issue create_object creates: base and uid labels, the
data as body, the initial-state comment, closed. -/
def mkAnchorIssue (t : Tracker) (object_id : String) (data : Json) :
    GIssue :=
  GIssue.mk (nextIssueNumber t) none "closed"
    ["stored-object", "UID:" ++ object_id] (some data)
    [mkInitialComment t data] t.now t.now

/-- The stored object create_object returns (version 1). -/
def createdObject (t : Tracker) (object_id : String) (data : Json) :
    StoredObject :=
  StoredObject.mk
    (ObjectMeta.mk object_id ("UID:" ++ object_id) t.now t.now 1) data

/-- IssueHandler.create_object (src/gh_store/handlers/issue.py lines
25-99): DuplicateUIDError is raised only when, among the existing
non-deprecated issues with the uid label, one carries canonical-object;
otherwise a fresh anchor is created even alongside existing anchors.
Label-registry bookkeeping (_ensure_labels_exist) is not modelled. -/
def create_object (t : Tracker) (object_id : String) (data : Json) :
    Tracker × Except StoreErr StoredObject :=
  if (getIssues t ["stored-object", "UID:" ++ object_id] "all").isEmpty then
    (Tracker.mk (t.issues ++ [mkAnchorIssue t object_id data]) t.now,
      Except.ok (createdObject t object_id data))
  else if ((getIssues t ["stored-object", "UID:" ++ object_id]
      "all").filter (fun i =>
        !(i.labels.any (fun l => l == "deprecated-object")))).isEmpty then
    (Tracker.mk (t.issues ++ [mkAnchorIssue t object_id data]) t.now,
      Except.ok (createdObject t object_id data))
  else if (((getIssues t ["stored-object", "UID:" ++ object_id]
      "all").filter (fun i =>
        !(i.labels.any (fun l => l == "deprecated-object")))).filter
      (fun i => i.labels.any (fun l => l == "canonical-object"))).isEmpty then
    (Tracker.mk (t.issues ++ [mkAnchorIssue t object_id data]) t.now,
      Except.ok (createdObject t object_id data))
  else (t, Except.error StoreErr.duplicateUid)

/-- IssueHandler.delete_object (src/gh_store/handlers/issue.py lines
441-457), verbatim: the lookup uses the bare object id as a label (no
uid tag), and the edit sets the labels to archived plus the base label
plus the bare id - the base label is kept. -/
def delete_object (t : Tracker) (object_id : String) :
    Tracker × Except StoreErr Unit :=
  match getIssues t ["stored-object", object_id] "all" with
  | [] => (t, Except.error StoreErr.objectNotFound)
  | issue :: _ =>
      (editIssue t issue.number (fun i =>
        GIssue.mk i.number i.creator "closed"
          ["archived", "stored-object", object_id] i.body i.comments
          i.created_at i.updated_at),
        Except.ok ())

/-- The update envelope payload built by IssueHandler.update_object
(src/gh_store/handlers/issue.py lines 421-430) and by
CanonicalStore.update_object (src/gh_store/tools/canonicalize.py lines
363-371): _data is the caller's changes, _meta carries the client
version, the current time and update_mode "append", and type is None
(passed explicitly by the issue handler, left at its default by the
canonical store). -/
def updatePayload (changes : Json) (now : String) : CommentPayload :=
  CommentPayload.mk changes
    (CommentMeta.mk CLIENT_VERSION now "append") none

/-- Post an update envelope on an issue and reopen it (the shared tail
of both update_object drafts). -/
def postUpdate (t : Tracker) (issue_number : Nat) (changes : Json) :
    Tracker × Except StoreErr CommentPayload :=
  let payload := updatePayload changes (Nat.repr t.now)
  let t2 := addComment t issue_number payload.to_dict
  let t3 := editIssue t2 issue_number (fun i =>
    GIssue.mk i.number i.creator "open" i.labels i.body i.comments
      i.created_at i.updated_at)
  (t3, Except.ok payload)

/-- IssueHandler.update_object (src/gh_store/handlers/issue.py lines
365-439): check the object exists, pick the canonical issue if one is
labelled, else follow the first alias's redirect, else the first issue;
then post the append envelope and reopen. The function's final
re-read of the object is not modelled; the posted payload is returned
instead. -/
def update_object (t : Tracker) (object_id : String) (changes : Json) :
    Tracker × Except StoreErr CommentPayload :=
  let issues := getIssues t ["stored-object", "UID:" ++ object_id] "all"
  match issues with
  | [] => (t, Except.error StoreErr.objectNotFound)
  | first :: _ =>
      let canonical_issues := issues.filter (fun i =>
        i.labels.any (fun l => l == "canonical-object"))
      match canonical_issues with
      | c :: _ => postUpdate t c.number changes
      | [] =>
          let alias_issues := issues.filter (fun i =>
            i.labels.any (fun l => l == "alias-object"))
          match alias_issues with
          | [] => postUpdate t first.number changes
          | a :: _ =>
              match findRedirectTarget a with
              | some n =>
                  match getIssue t n with
                  | none => (t, Except.error StoreErr.valueError)
                  | some target => postUpdate t target.number changes
              | none => postUpdate t first.number changes

/-- GitHubStore.update (src/gh_store/core/store.py lines 53-65): refuse
with ConcurrentUpdateError when an open issue carries the base and uid
labels, before any envelope is posted; otherwise delegate to the issue
handler. -/
def store_update (t : Tracker) (object_id : String) (changes : Json) :
    Tracker × Except StoreErr CommentPayload :=
  if ((getIssues t ["stored-object", "UID:" ++ object_id] "open").isEmpty)
  then update_object t object_id changes
  else (t, Except.error StoreErr.concurrentUpdate)

/-- GitHubStore.list_updated_since (src/gh_store/core/store.py lines
182-215). The tracker's since-parameter is unpredictable (it includes
comment activity), so the query result is modelled as the closed,
base-labelled issues passing an arbitrary predicate. Issues with the
archived, alias-object, or deprecated-object labels are skipped, each
remaining object is loaded by issue number, and only objects whose
updated_at is strictly later than the cutoff are kept (the re-check at
line 208). ValueErrors skip the issue. -/
def list_updated_since (t : Tracker) (sincePred : GIssue → Bool)
    (timestamp : Nat) : List (String × StoredObject) :=
  ((t.issues.filter (fun i =>
      i.state == "closed" &&
        i.labels.any (fun l => l == "stored-object") &&
        sincePred i)).filterMap (fun issue =>
    if issue.labels.any (fun l =>
        l == "archived" || l == "alias-object" || l == "deprecated-object")
    then none
    else
      match get_object_id_from_labels issue with
      | none => none
      | some object_id =>
          match get_object_by_number t issue.number 32 with
          | none => none
          | some obj =>
              if timestamp < obj.meta.updated_at then some (object_id, obj)
              else none))

/-- Tracker with an open anchor for "x": a process cycle is pending. -/
def cexOpenAnchorT : Tracker :=
  Tracker.mk
    [GIssue.mk 1 (some "owner") "open" ["stored-object", "UID:x"]
      (some (Json.obj [("v", Json.num 1)])) [] 50 60] 100

/-- The access environment of the concrete runs: owner only. -/
def cexEnv : AccessEnv := AccessEnv.mk "owner" []

/-- An anchor issue created by the unauthorized user "infiltrator". -/
def cexInfiltratorIssue : GIssue :=
  GIssue.mk 1 (some "infiltrator") "open" ["stored-object", "UID:x"]
    (some (Json.obj [("v", Json.num 1)])) [] 50 60

/-- Tracker whose only anchor was created by an unauthorized user. -/
def cexInfiltratorT : Tracker := Tracker.mk [cexInfiltratorIssue] 100

/-- Tracker with an existing non-deprecated, non-canonical anchor for
"x". -/
def cexDupT : Tracker :=
  Tracker.mk
    [GIssue.mk 1 (some "owner") "closed" ["stored-object", "UID:x"]
      (some (Json.num 1)) [] 10 20] 100

/-- The anchor delete_object finds for "x": labelled with the base
label and the bare id, as its lookup requires. -/
def cexDelIssue : GIssue :=
  GIssue.mk 1 (some "owner") "closed" ["stored-object", "x"]
    (some (Json.num 1)) [] 10 20

/-- Tracker holding the delete counterexample anchor. -/
def cexDelT : Tracker := Tracker.mk [cexDelIssue] 100

/-- The delete counterexample anchor after delete_object edits it. -/
def cexDelIssuePost : GIssue :=
  GIssue.mk 1 (some "owner") "closed" ["archived", "stored-object", "x"]
    (some (Json.num 1)) [] 10 20

/-- Tracker with a self-referential alias: issue 1 is labelled UID:x
and ALIAS-TO:x. -/
def cexSelfLoopT : Tracker :=
  Tracker.mk
    [GIssue.mk 1 (some "owner") "closed"
      ["stored-object", "UID:x", "ALIAS-TO:x"] (some (Json.num 1)) [] 10
      20] 100

/-- Tracker with one closed, base-labelled anchor updated at time 60. -/
def cexListT : Tracker :=
  Tracker.mk
    [GIssue.mk 1 (some "owner") "closed" ["stored-object", "UID:x"]
      (some (Json.num 7)) [] 40 60] 100

/-- The object list_updated_since loads from the cexListT anchor. -/
def cexListObj : StoredObject :=
  StoredObject.mk (ObjectMeta.mk "x" "x" 40 60 1) (Json.num 7)

theorem fieldKeys_cons (p : String × Json) (rest : List (String × Json)) :
    fieldKeys (p :: rest) = p.1 :: fieldKeys rest := rfl

theorem mem_fieldKeys_cons (k : String) (p : String × Json)
    (rest : List (String × Json)) :
    k ∈ fieldKeys (p :: rest) ↔ k = p.1 ∨ k ∈ fieldKeys rest := by
  rw [fieldKeys_cons]
  exact List.mem_cons

theorem nodup_fieldKeys_cons (p : String × Json)
    (rest : List (String × Json))
    (h : (fieldKeys (p :: rest)).Nodup) :
    p.1 ∉ fieldKeys rest ∧ (fieldKeys rest).Nodup := by
  rw [fieldKeys_cons] at h
  exact ⟨(List.nodup_cons.mp h).1, (List.nodup_cons.mp h).2⟩

theorem lookupField_of_not_mem (fs : List (String × Json)) (k : String)
    (h : k ∉ fieldKeys fs) : lookupField fs k = none := by
  induction fs with
  | nil => rfl
  | cons p rest ih =>
    obtain ⟨k', v⟩ := p
    rw [mem_fieldKeys_cons] at h
    push_neg at h
    have h1 : k' ≠ k := Ne.symm h.1
    simpa [lookupField, h1] using ih h.2

theorem mem_of_lookupField_some (fs : List (String × Json)) (k : String)
    (v : Json) (h : lookupField fs k = some v) : k ∈ fieldKeys fs := by
  by_contra hk
  rw [lookupField_of_not_mem fs k hk] at h
  exact Option.noConfusion h

theorem lookupField_isSome_of_mem (fs : List (String × Json)) (k : String)
    (h : k ∈ fieldKeys fs) : ∃ v, lookupField fs k = some v := by
  induction fs with
  | nil => simp [fieldKeys] at h
  | cons p rest ih =>
    obtain ⟨k', v'⟩ := p
    by_cases he : k' = k
    · exact ⟨v', by simp [lookupField, he]⟩
    · rw [mem_fieldKeys_cons] at h
      rcases h with h | h
      · exact absurd h.symm he
      · simpa [lookupField, he] using ih h

theorem lookupField_set_self (fs : List (String × Json)) (k : String)
    (v : Json) : lookupField (setField fs k v) k = some v := by
  induction fs with
  | nil => simp [setField, lookupField]
  | cons p rest ih =>
    obtain ⟨k', v'⟩ := p
    by_cases he : k' = k
    · simp [setField, he, lookupField]
    · simp [setField, he, lookupField, ih]

theorem lookupField_set_ne (fs : List (String × Json)) (k k' : String)
    (v : Json) (h : k' ≠ k) :
    lookupField (setField fs k v) k' = lookupField fs k' := by
  induction fs with
  | nil => simp [setField, lookupField, Ne.symm h]
  | cons p rest ih =>
    obtain ⟨ka, va⟩ := p
    by_cases he : ka = k
    · subst he
      simp [setField, lookupField, Ne.symm h]
    · simp only [setField, he, if_false, lookupField]
      by_cases he2 : ka = k'
      · simp [he2]
      · simp [he2, ih]

theorem fieldKeys_setField (fs : List (String × Json)) (k : String)
    (v : Json) :
    fieldKeys (setField fs k v) =
      if k ∈ fieldKeys fs then fieldKeys fs else fieldKeys fs ++ [k] := by
  induction fs with
  | nil => simp [setField, fieldKeys]
  | cons p rest ih =>
    obtain ⟨k', v'⟩ := p
    by_cases he : k' = k
    · subst he
      simp [setField, fieldKeys_cons, mem_fieldKeys_cons]
    · simp only [setField, he, if_false, fieldKeys_cons, ih,
        mem_fieldKeys_cons]
      by_cases hm : k ∈ fieldKeys rest
      · simp [hm, Ne.symm he]
      · simp [hm, Ne.symm he]

theorem lookupField_deep_merge (u : List (String × Json))
    (hu : (fieldKeys u).Nodup) (b : List (String × Json)) (k : String) :
    lookupField (deep_merge b u) k =
      match lookupField u k with
      | some uv => some (mergeValue (lookupField b k) uv)
      | none => lookupField b k := by
  induction u generalizing b with
  | nil => simp [deep_merge, lookupField]
  | cons p rest ih =>
    obtain ⟨ku, vu⟩ := p
    obtain ⟨hknot, hnd⟩ := nodup_fieldKeys_cons (ku, vu) rest hu
    rw [show deep_merge b ((ku, vu) :: rest) =
      deep_merge (setField b ku (mergeValue (lookupField b ku) vu)) rest
      from rfl]
    rw [ih hnd]
    by_cases he : k = ku
    · subst he
      rw [lookupField_of_not_mem rest k hknot]
      simp [lookupField, lookupField_set_self]
    · have h1 : lookupField ((ku, vu) :: rest) k = lookupField rest k := by
        simp [lookupField, Ne.symm he]
      rw [h1, lookupField_set_ne b ku k _ he]

theorem fieldKeys_deep_merge (u : List (String × Json))
    (hu : (fieldKeys u).Nodup) (b : List (String × Json)) :
    fieldKeys (deep_merge b u) =
      fieldKeys b ++
        (fieldKeys u).filter (fun k => decide (k ∉ fieldKeys b)) := by
  induction u generalizing b with
  | nil => simp [deep_merge, fieldKeys]
  | cons p rest ih =>
    obtain ⟨ku, vu⟩ := p
    obtain ⟨hknot, hnd⟩ := nodup_fieldKeys_cons (ku, vu) rest hu
    rw [show deep_merge b ((ku, vu) :: rest) =
      deep_merge (setField b ku (mergeValue (lookupField b ku) vu)) rest
      from rfl]
    rw [ih hnd, fieldKeys_setField, fieldKeys_cons]
    by_cases hm : ku ∈ fieldKeys b
    · simp only [hm, if_true, List.filter_cons]
      simp [hm]
    · simp only [hm, if_false, List.filter_cons]
      have hfilter :
          (fieldKeys rest).filter
              (fun k => decide (k ∉ fieldKeys b ++ [ku])) =
            (fieldKeys rest).filter (fun k => decide (k ∉ fieldKeys b)) := by
        apply List.filter_congr
        intro x hx
        have hxne : x ≠ ku := by
          intro hxe
          exact hknot (hxe ▸ hx)
        simp [List.mem_append, hxne]
      rw [hfilter]
      simp [hm, List.append_assoc]

theorem mem_fieldKeys_deep_merge (u : List (String × Json))
    (hu : (fieldKeys u).Nodup) (b : List (String × Json)) (k : String) :
    k ∈ fieldKeys (deep_merge b u) ↔
      k ∈ fieldKeys b ∨ k ∈ fieldKeys u := by
  rw [fieldKeys_deep_merge u hu b]
  simp only [List.mem_append, List.mem_filter, decide_eq_true_iff]
  constructor
  · rintro (h | ⟨h, _⟩)
    · exact Or.inl h
    · exact Or.inr h
  · rintro (h | h)
    · exact Or.inl h
    · by_cases hb : k ∈ fieldKeys b
      · exact Or.inl hb
      · exact Or.inr ⟨h, hb⟩

theorem fieldKeys_deep_merge_absorb (u : List (String × Json))
    (hu : (fieldKeys u).Nodup) (b : List (String × Json))
    (hsub : ∀ k ∈ fieldKeys u, k ∈ fieldKeys b) :
    fieldKeys (deep_merge b u) = fieldKeys b := by
  rw [fieldKeys_deep_merge u hu b]
  have : (fieldKeys u).filter (fun k => decide (k ∉ fieldKeys b)) = [] := by
    rw [List.filter_eq_nil_iff]
    intro k hk
    simp [hsub k hk]
  rw [this, List.append_nil]

theorem nodup_fieldKeys_deep_merge (u : List (String × Json))
    (hu : (fieldKeys u).Nodup) (b : List (String × Json))
    (hb : (fieldKeys b).Nodup) :
    (fieldKeys (deep_merge b u)).Nodup := by
  rw [fieldKeys_deep_merge u hu b]
  apply List.Nodup.append hb (hu.filter _)
  intro k hk hk2
  have := List.of_mem_filter hk2
  simp at this
  exact this hk

theorem wfF_iff (fs : List (String × Json)) :
    wfF fs = true ↔ (fieldKeys fs).Nodup ∧ wfFieldsB fs = true := by
  simp [wfF, Bool.and_eq_true, decide_eq_true_iff]

theorem wfB_obj (fs : List (String × Json)) :
    Json.wfB (Json.obj fs) = wfF fs := rfl

theorem wfFieldsB_cons (p : String × Json) (rest : List (String × Json)) :
    wfFieldsB (p :: rest) = (Json.wfB p.2 && wfFieldsB rest) := rfl

theorem wfFieldsB_iff (fs : List (String × Json)) :
    wfFieldsB fs = true ↔ ∀ p ∈ fs, Json.wfB p.2 = true := by
  induction fs with
  | nil => simp [wfFieldsB]
  | cons p rest ih =>
    rw [wfFieldsB_cons]
    simp [Bool.and_eq_true, ih]

theorem wfB_of_lookupField (fs : List (String × Json)) (k : String)
    (v : Json) (hwf : wfFieldsB fs = true)
    (h : lookupField fs k = some v) : Json.wfB v = true := by
  induction fs with
  | nil => simp [lookupField] at h
  | cons p rest ih =>
    obtain ⟨k', v'⟩ := p
    rw [wfFieldsB_cons] at hwf
    rw [Bool.and_eq_true] at hwf
    by_cases he : k' = k
    · simp [lookupField, he] at h
      exact h ▸ hwf.1
    · simp [lookupField, he] at h
      exact ih hwf.2 h

theorem sizeOf_lookupField (fs : List (String × Json)) (k : String)
    (v : Json) (h : lookupField fs k = some v) : sizeOf v < sizeOf fs := by
  induction fs with
  | nil => simp [lookupField] at h
  | cons p rest ih =>
    obtain ⟨k', v'⟩ := p
    by_cases he : k' = k
    · simp [lookupField, he] at h
      subst h
      simp
      omega
    · simp [lookupField, he] at h
      have := ih h
      simp
      omega

theorem lookupField_eq_some_of_mem (fs : List (String × Json))
    (k : String) (v : Json) (hnd : (fieldKeys fs).Nodup)
    (h : (k, v) ∈ fs) : lookupField fs k = some v := by
  induction fs with
  | nil => simp at h
  | cons p rest ih =>
    obtain ⟨k', v'⟩ := p
    obtain ⟨hknot, hnd2⟩ := nodup_fieldKeys_cons (k', v') rest hnd
    rcases List.mem_cons.mp h with h | h
    · rw [Prod.mk.injEq] at h
      simp [lookupField, h.1, h.2]
    · have hk : k ∈ fieldKeys rest := by
        have : k = (k, v).1 := rfl
        rw [this]
        exact List.mem_map_of_mem Prod.fst h
      have hne : k' ≠ k := by
        intro he
        exact hknot (he ▸ hk)
      simp [lookupField, hne]
      exact ih hnd2 h

theorem mem_of_lookupField_eq_some (fs : List (String × Json))
    (k : String) (v : Json) (h : lookupField fs k = some v) :
    (k, v) ∈ fs := by
  induction fs with
  | nil => simp [lookupField] at h
  | cons p rest ih =>
    obtain ⟨k', v'⟩ := p
    by_cases he : k' = k
    · simp [lookupField, he] at h
      simp [he, h]
    · simp [lookupField, he] at h
      exact List.mem_cons_of_mem _ (ih h)

theorem fields_ext (fs : List (String × Json)) :
    ∀ gs : List (String × Json), fieldKeys fs = fieldKeys gs →
      (fieldKeys fs).Nodup →
      (∀ k, lookupField fs k = lookupField gs k) → fs = gs := by
  induction fs with
  | nil =>
    intro gs hkeys _ _
    cases gs with
    | nil => rfl
    | cons q qs => simp [fieldKeys] at hkeys
  | cons p rest ih =>
    intro gs hkeys hnd hlook
    cases gs with
    | nil => simp [fieldKeys] at hkeys
    | cons q qs =>
      obtain ⟨k, v⟩ := p
      obtain ⟨k2, v2⟩ := q
      rw [fieldKeys_cons, fieldKeys_cons] at hkeys
      have hk : k = k2 := by
        have := List.head_eq_of_cons_eq hkeys
        simpa using this
      have htail : fieldKeys rest = fieldKeys qs :=
        List.tail_eq_of_cons_eq hkeys
      obtain ⟨hknot, hnd2⟩ := nodup_fieldKeys_cons (k, v) rest hnd
      subst hk
      have hv : v = v2 := by
        have := hlook k
        simp [lookupField] at this
        exact this
      have htl : rest = qs := by
        apply ih qs htail hnd2
        intro k'
        by_cases he : k' = k
        · subst he
          rw [lookupField_of_not_mem rest k' hknot,
            lookupField_of_not_mem qs k' (htail ▸ hknot)]
        · have hne : k ≠ k' := fun h => he h.symm
          have := hlook k'
          simp [lookupField, hne] at this
          exact this
      rw [hv, htl]

theorem mergeValue_cases (c : Option Json) (v : Json) :
    (∃ bf uf, c = some (Json.obj bf) ∧ v = Json.obj uf ∧
      mergeValue c v = Json.obj (deep_merge bf uf)) ∨
    mergeValue c v = v := by
  cases c with
  | none => right; cases v <;> rfl
  | some cv =>
    cases cv <;> cases v <;>
      first
      | (left; exact ⟨_, _, rfl, rfl, rfl⟩)
      | (right; rfl)

theorem mergeValue_obj_arg (c : Option Json)
    (uf : List (String × Json)) :
    ∃ hf, mergeValue c (Json.obj uf) = Json.obj hf := by
  rcases mergeValue_cases c (Json.obj uf) with ⟨bf, uf', hc, hv, he⟩ | he
  · exact ⟨deep_merge bf uf', he⟩
  · exact ⟨uf, he⟩

theorem mergeValue_of_not_obj (c : Option Json) (v : Json)
    (h : v.isObjB = false) : mergeValue c v = v := by
  rcases mergeValue_cases c v with ⟨bf, uf, hc, hv, he⟩ | he
  · rw [hv] at h
    simp [Json.isObjB] at h
  · exact he

theorem wfF_deep_merge_aux (n : Nat) :
    ∀ u : List (String × Json), sizeOf u ≤ n →
      ∀ b, wfF b = true → wfF u = true →
        wfF (deep_merge b u) = true := by
  induction n with
  | zero =>
    intro u hsz
    cases u with
    | nil => intro b hb _; simpa [deep_merge] using hb
    | cons p rest => simp at hsz
  | succ n ih =>
    intro u hsz b hb hu
    obtain ⟨hbn, hbv⟩ := (wfF_iff b).mp hb
    obtain ⟨hun, huv⟩ := (wfF_iff u).mp hu
    rw [wfF_iff]
    refine ⟨nodup_fieldKeys_deep_merge u hun b hbn, ?_⟩
    rw [wfFieldsB_iff]
    intro p hp
    have hl : lookupField (deep_merge b u) p.1 = some p.2 :=
      lookupField_eq_some_of_mem _ _ _
        (nodup_fieldKeys_deep_merge u hun b hbn) hp
    rw [lookupField_deep_merge u hun b p.1] at hl
    cases hcase : lookupField u p.1 with
    | none =>
      rw [hcase] at hl
      exact wfB_of_lookupField b p.1 p.2 hbv hl
    | some uv =>
      rw [hcase] at hl
      have hp2 : p.2 = mergeValue (lookupField b p.1) uv := by
        exact (Option.some.injEq _ _ ▸ hl).symm
      have huvwf : Json.wfB uv = true := wfB_of_lookupField u p.1 uv huv hcase
      rcases mergeValue_cases (lookupField b p.1) uv with
        ⟨bf, uf, hc, hv, he⟩ | he
      · rw [hp2, he]
        rw [wfB_obj]
        have hbfwf : Json.wfB (Json.obj bf) = true :=
          wfB_of_lookupField b p.1 _ hbv hc
        have hufwf : Json.wfB (Json.obj uf) = true := hv ▸ huvwf
        have hsz2 : sizeOf uf ≤ n := by
          have h1 : sizeOf uv < sizeOf u := sizeOf_lookupField u p.1 uv hcase
          rw [hv] at h1
          simp at h1
          omega
        exact ih uf hsz2 bf (wfB_obj bf ▸ hbfwf) (wfB_obj uf ▸ hufwf)
      · rw [hp2, he]
        exact huvwf

theorem wfF_deep_merge (b u : List (String × Json)) (hb : wfF b = true)
    (hu : wfF u = true) : wfF (deep_merge b u) = true :=
  wfF_deep_merge_aux (sizeOf u) u (Nat.le_refl _) b hb hu

theorem mergeAll_append_one (x : List (String × Json))
    (us : List (List (String × Json))) (v : List (String × Json)) :
    deep_merge (mergeAll x us) v = mergeAll x (us ++ [v]) := by
  induction us generalizing x with
  | nil => rfl
  | cons u rest ih => exact ih (deep_merge x u)

theorem wfF_mergeAll (us : List (List (String × Json)))
    (x : List (String × Json)) (hx : wfF x = true)
    (hus : ∀ u ∈ us, wfF u = true) : wfF (mergeAll x us) = true := by
  induction us generalizing x with
  | nil => exact hx
  | cons u rest ih =>
    exact ih (deep_merge x u)
      (wfF_deep_merge x u hx (hus u (List.mem_cons_self u rest)))
      (fun v hv => hus v (List.mem_cons_of_mem u hv))

theorem lookupField_mergeAll (us : List (List (String × Json)))
    (hus : ∀ u ∈ us, (fieldKeys u).Nodup) (z : List (String × Json))
    (k : String) :
    lookupField (mergeAll z us) k =
      chainVal (lookupField z k) (projAt k us) := by
  induction us generalizing z with
  | nil => rfl
  | cons u rest ih =>
    have hu : (fieldKeys u).Nodup := hus u (List.mem_cons_self u rest)
    have hrest : ∀ v ∈ rest, (fieldKeys v).Nodup :=
      fun v hv => hus v (List.mem_cons_of_mem u hv)
    rw [show mergeAll z (u :: rest) = mergeAll (deep_merge z u) rest
      from rfl]
    rw [ih hrest (deep_merge z u)]
    rw [lookupField_deep_merge u hu z k]
    cases hcase : lookupField u k with
    | none =>
      simp only [projAt, List.filterMap_cons, hcase]
    | some uv =>
      simp only [projAt, List.filterMap_cons, hcase]
      rfl

theorem mem_fieldKeys_mergeAll (us : List (List (String × Json)))
    (hus : ∀ u ∈ us, (fieldKeys u).Nodup) (z : List (String × Json))
    (k : String) :
    k ∈ fieldKeys (mergeAll z us) ↔
      k ∈ fieldKeys z ∨ ∃ u ∈ us, k ∈ fieldKeys u := by
  induction us generalizing z with
  | nil => simp [mergeAll]
  | cons u rest ih =>
    have hu : (fieldKeys u).Nodup := hus u (List.mem_cons_self u rest)
    have hrest : ∀ v ∈ rest, (fieldKeys v).Nodup :=
      fun v hv => hus v (List.mem_cons_of_mem u hv)
    rw [show mergeAll z (u :: rest) = mergeAll (deep_merge z u) rest
      from rfl]
    rw [ih hrest (deep_merge z u), mem_fieldKeys_deep_merge u hu z k]
    simp only [List.mem_cons]
    constructor
    · rintro ((h | h) | ⟨v, hv, h⟩)
      · exact Or.inl h
      · exact Or.inr ⟨u, Or.inl rfl, h⟩
      · exact Or.inr ⟨v, Or.inr hv, h⟩
    · rintro (h | ⟨v, (hv | hv), h⟩)
      · exact Or.inl (Or.inl h)
      · exact Or.inl (Or.inr (hv ▸ h))
      · exact Or.inr ⟨v, hv, h⟩

theorem keys_subset_of_mergeAll_eq (us : List (List (String × Json)))
    (hus : ∀ u ∈ us, (fieldKeys u).Nodup) (y : List (String × Json))
    (habs : mergeAll y us = y) :
    ∀ u ∈ us, ∀ k ∈ fieldKeys u, k ∈ fieldKeys y := by
  intro u hu k hk
  have : k ∈ fieldKeys (mergeAll y us) :=
    (mem_fieldKeys_mergeAll us hus y k).mpr (Or.inr ⟨u, hu, hk⟩)
  rwa [habs] at this

theorem fieldKeys_mergeAll_absorb (us : List (List (String × Json)))
    (hus : ∀ u ∈ us, (fieldKeys u).Nodup) (z : List (String × Json))
    (hsub : ∀ u ∈ us, ∀ k ∈ fieldKeys u, k ∈ fieldKeys z) :
    fieldKeys (mergeAll z us) = fieldKeys z := by
  induction us generalizing z with
  | nil => rfl
  | cons u rest ih =>
    have hu : (fieldKeys u).Nodup := hus u (List.mem_cons_self u rest)
    have habs : fieldKeys (deep_merge z u) = fieldKeys z :=
      fieldKeys_deep_merge_absorb u hu z
        (hsub u (List.mem_cons_self u rest))
    rw [show mergeAll z (u :: rest) = mergeAll (deep_merge z u) rest
      from rfl]
    rw [ih (fun v hv => hus v (List.mem_cons_of_mem u hv))
      (deep_merge z u)
      (fun v hv k hk => habs ▸ hsub v (List.mem_cons_of_mem u hv) k hk)]
    exact habs

theorem chainVal_const (ps : List Json)
    (hp : ∃ p ∈ ps, p.isObjB = false) :
    ∀ c c', chainVal c ps = chainVal c' ps := by
  induction ps with
  | nil => simp at hp
  | cons u rest ih =>
    intro c c'
    by_cases hu : u.isObjB = true
    · rcases hp with ⟨p, hpm, hpf⟩
      rcases List.mem_cons.mp hpm with rfl | hpr
      · rw [hu] at hpf
        exact Bool.noConfusion hpf
      · exact ih ⟨p, hpr, hpf⟩ _ _
    · have h1 : mergeValue c u = u :=
        mergeValue_of_not_obj c u (by simpa using hu)
      have h2 : mergeValue c' u = u :=
        mergeValue_of_not_obj c' u (by simpa using hu)
      rw [show chainVal c (u :: rest) =
        chainVal (some (mergeValue c u)) rest from rfl]
      rw [show chainVal c' (u :: rest) =
        chainVal (some (mergeValue c' u)) rest from rfl]
      rw [h1, h2]

theorem chainVal_obj (ps : List Json) (hp : ∀ p ∈ ps, p.isObjB = true) :
    ∀ zf, chainVal (some (Json.obj zf)) ps =
      some (Json.obj (mergeAll zf (objFields ps))) := by
  induction ps with
  | nil => intro zf; rfl
  | cons u rest ih =>
    intro zf
    have hu : u.isObjB = true := hp u (List.mem_cons_self u rest)
    cases u with
    | obj uf =>
      rw [show chainVal (some (Json.obj zf)) (Json.obj uf :: rest) =
        chainVal (some (mergeValue (some (Json.obj zf)) (Json.obj uf)))
          rest from rfl]
      rw [show mergeValue (some (Json.obj zf)) (Json.obj uf) =
        Json.obj (deep_merge zf uf) from rfl]
      rw [ih (fun p hpm => hp p (List.mem_cons_of_mem (Json.obj uf) hpm))]
      rfl
    | null => simp [Json.isObjB] at hu
    | bool b => simp [Json.isObjB] at hu
    | num x => simp [Json.isObjB] at hu
    | str s => simp [Json.isObjB] at hu
    | arr xs => simp [Json.isObjB] at hu

theorem chainVal_ends_obj (ps : List Json)
    (hp : ∀ p ∈ ps, p.isObjB = true) (hne : ps ≠ []) :
    ∀ c, ∃ gf, chainVal c ps = some (Json.obj gf) := by
  induction ps with
  | nil => exact absurd rfl hne
  | cons u rest ih =>
    intro c
    have hu : u.isObjB = true := hp u (List.mem_cons_self u rest)
    cases u with
    | obj uf =>
      obtain ⟨hf, hhf⟩ := mergeValue_obj_arg c uf
      rw [show chainVal c (Json.obj uf :: rest) =
        chainVal (some (mergeValue c (Json.obj uf))) rest from rfl, hhf]
      cases rest with
      | nil => exact ⟨hf, rfl⟩
      | cons r rs =>
        exact ih (fun p hpm => hp p (List.mem_cons_of_mem _ hpm))
          (List.cons_ne_nil r rs) _
    | null => simp [Json.isObjB] at hu
    | bool b => simp [Json.isObjB] at hu
    | num x => simp [Json.isObjB] at hu
    | str s => simp [Json.isObjB] at hu
    | arr xs => simp [Json.isObjB] at hu

theorem mem_projAt (k : String) (us : List (List (String × Json)))
    (p : Json) :
    p ∈ projAt k us ↔ ∃ u ∈ us, lookupField u k = some p := by
  simp [projAt, List.mem_filterMap]

theorem mem_objFields (ps : List Json) (uf : List (String × Json)) :
    uf ∈ objFields ps → Json.obj uf ∈ ps := by
  intro h
  rw [objFields, List.mem_filterMap] at h
  rcases h with ⟨p, hpm, hpe⟩
  cases p <;> simp at hpe
  exact hpe ▸ hpm

theorem deep_merge_self_aux (n : Nat) :
    ∀ x : List (String × Json), sizeOf x ≤ n → wfF x = true →
      deep_merge x x = x := by
  induction n with
  | zero =>
    intro x hsz
    cases x with
    | nil => intro _; rfl
    | cons p rest => simp at hsz
  | succ n ih =>
    intro x hsz hx
    obtain ⟨hxn, hxv⟩ := (wfF_iff x).mp hx
    apply fields_ext
    · exact fieldKeys_deep_merge_absorb x hxn x (fun k hk => hk)
    · exact nodup_fieldKeys_deep_merge x hxn x hxn
    · intro k
      rw [lookupField_deep_merge x hxn x k]
      cases hcase : lookupField x k with
      | none => rfl
      | some v =>
        cases v with
        | obj vf =>
          show some (mergeValue (some (Json.obj vf)) (Json.obj vf)) =
            some (Json.obj vf)
          rw [show mergeValue (some (Json.obj vf)) (Json.obj vf) =
            Json.obj (deep_merge vf vf) from rfl]
          have hvwf : Json.wfB (Json.obj vf) = true :=
            wfB_of_lookupField x k _ hxv hcase
          have hszv : sizeOf vf ≤ n := by
            have := sizeOf_lookupField x k _ hcase
            simp at this
            omega
          rw [ih vf hszv (wfB_obj vf ▸ hvwf)]
        | null => rfl
        | bool b => rfl
        | num m => rfl
        | str s => rfl
        | arr xs => rfl

theorem deep_merge_self (x : List (String × Json)) (hx : wfF x = true) :
    deep_merge x x = x :=
  deep_merge_self_aux (sizeOf x) x (Nat.le_refl _) hx

theorem mergeValue_congr_nonobj (c1 c2 : Option Json) (v : Json)
    (h : v.isObjB = false) : mergeValue c1 v = mergeValue c2 v := by
  rw [mergeValue_of_not_obj c1 v h, mergeValue_of_not_obj c2 v h]

theorem lemA_aux (n : Nat) :
    ∀ v : List (String × Json), sizeOf v ≤ n →
      ∀ (us : List (List (String × Json))) (y : List (String × Json)),
        wfF y = true → (∀ u ∈ us, wfF u = true) → wfF v = true →
        mergeAll y us = y →
        deep_merge (mergeAll (deep_merge y v) us) v = deep_merge y v := by
  induction n with
  | zero =>
    intro v hsz
    cases v with
    | nil =>
      intro us y _ _ _ habs
      show deep_merge (mergeAll (deep_merge y []) us) [] = deep_merge y []
      rw [show deep_merge y ([] : List (String × Json)) = y from rfl]
      show mergeAll y us = y
      exact habs
    | cons p rest => simp at hsz
  | succ n ih =>
    intro v hsz us y hy hus hv habs
    obtain ⟨hyn, hyv⟩ := (wfF_iff y).mp hy
    obtain ⟨hvn, hvv⟩ := (wfF_iff v).mp hv
    have husn : ∀ u ∈ us, (fieldKeys u).Nodup :=
      fun u hu => ((wfF_iff u).mp (hus u hu)).1
    have husv : ∀ u ∈ us, wfFieldsB u = true :=
      fun u hu => ((wfF_iff u).mp (hus u hu)).2
    have hsub : ∀ u ∈ us, ∀ k ∈ fieldKeys u, k ∈ fieldKeys y :=
      keys_subset_of_mergeAll_eq us husn y habs
    have hWwf : wfF (deep_merge y v) = true := wfF_deep_merge y v hy hv
    have hsubW : ∀ u ∈ us, ∀ k ∈ fieldKeys u,
        k ∈ fieldKeys (deep_merge y v) := by
      intro u hu k hk
      exact (mem_fieldKeys_deep_merge v hvn y k).mpr
        (Or.inl (hsub u hu k hk))
    have hkeysM : fieldKeys (mergeAll (deep_merge y v) us) =
        fieldKeys (deep_merge y v) :=
      fieldKeys_mergeAll_absorb us husn _ hsubW
    have hMwf : wfF (mergeAll (deep_merge y v) us) = true :=
      wfF_mergeAll us _ hWwf hus
    apply fields_ext
    · have hsubv : ∀ k ∈ fieldKeys v,
          k ∈ fieldKeys (mergeAll (deep_merge y v) us) := by
        intro k hk
        rw [hkeysM]
        exact (mem_fieldKeys_deep_merge v hvn y k).mpr (Or.inr hk)
      rw [fieldKeys_deep_merge_absorb v hvn _ hsubv, hkeysM]
    · exact ((wfF_iff _).mp (wfF_deep_merge _ v hMwf hv)).1
    · intro k
      have hMk : lookupField (mergeAll (deep_merge y v) us) k =
          chainVal (lookupField (deep_merge y v) k) (projAt k us) :=
        lookupField_mergeAll us husn _ k
      have hpt : chainVal (lookupField y k) (projAt k us) =
          lookupField y k := by
        have h0 := lookupField_mergeAll us husn y k
        rw [habs] at h0
        exact h0.symm
      rw [lookupField_deep_merge v hvn (mergeAll (deep_merge y v) us) k,
        lookupField_deep_merge v hvn y k]
      cases hvk : lookupField v k with
      | none =>
        show lookupField (mergeAll (deep_merge y v) us) k = lookupField y k
        have hWk : lookupField (deep_merge y v) k = lookupField y k := by
          rw [lookupField_deep_merge v hvn y k, hvk]
        rw [hMk, hWk, hpt]
      | some vv =>
        show some (mergeValue
            (lookupField (mergeAll (deep_merge y v) us) k) vv) =
          some (mergeValue (lookupField y k) vv)
        have hWk : lookupField (deep_merge y v) k =
            some (mergeValue (lookupField y k) vv) := by
          rw [lookupField_deep_merge v hvn y k, hvk]
        rw [hMk, hWk]
        cases vv with
        | null => exact congrArg some (mergeValue_congr_nonobj _ _ _ rfl)
        | bool b => exact congrArg some (mergeValue_congr_nonobj _ _ _ rfl)
        | num m => exact congrArg some (mergeValue_congr_nonobj _ _ _ rfl)
        | str s => exact congrArg some (mergeValue_congr_nonobj _ _ _ rfl)
        | arr xs => exact congrArg some (mergeValue_congr_nonobj _ _ _ rfl)
        | obj vf =>
          have hvfwf : wfF vf = true := by
            have := wfB_of_lookupField v k _ hvv hvk
            rwa [wfB_obj] at this
          have hszvf : sizeOf vf ≤ n := by
            have := sizeOf_lookupField v k _ hvk
            simp at this
            omega
          by_cases hobj : ∀ p ∈ projAt k us, p.isObjB = true
          · by_cases hne : projAt k us = []
            · rw [hne]
              show some (mergeValue (some (mergeValue (lookupField y k)
                  (Json.obj vf))) (Json.obj vf)) =
                some (mergeValue (lookupField y k) (Json.obj vf))
              cases hy0 : lookupField y k with
              | some yv =>
                cases yv with
                | obj yf =>
                  have hyfwf : wfF yf = true := by
                    have := wfB_of_lookupField y k _ hyv hy0
                    rwa [wfB_obj] at this
                  have hrec := ih vf hszvf [] yf hyfwf
                    (by intro u hu; simp at hu) hvfwf rfl
                  rw [show mergeAll (deep_merge yf vf)
                    ([] : List (List (String × Json))) =
                    deep_merge yf vf from rfl] at hrec
                  show some (Json.obj
                      (deep_merge (deep_merge yf vf) vf)) =
                    some (Json.obj (deep_merge yf vf))
                  rw [hrec]
                | null =>
                  show some (Json.obj (deep_merge vf vf)) =
                    some (Json.obj vf)
                  rw [deep_merge_self vf hvfwf]
                | bool b =>
                  show some (Json.obj (deep_merge vf vf)) =
                    some (Json.obj vf)
                  rw [deep_merge_self vf hvfwf]
                | num m =>
                  show some (Json.obj (deep_merge vf vf)) =
                    some (Json.obj vf)
                  rw [deep_merge_self vf hvfwf]
                | str s =>
                  show some (Json.obj (deep_merge vf vf)) =
                    some (Json.obj vf)
                  rw [deep_merge_self vf hvfwf]
                | arr xs =>
                  show some (Json.obj (deep_merge vf vf)) =
                    some (Json.obj vf)
                  rw [deep_merge_self vf hvfwf]
              | none =>
                show some (Json.obj (deep_merge vf vf)) =
                  some (Json.obj vf)
                rw [deep_merge_self vf hvfwf]
            · obtain ⟨gf, hgf⟩ :=
                chainVal_ends_obj (projAt k us) hobj hne (lookupField y k)
              have hy0 : lookupField y k = some (Json.obj gf) := by
                rw [← hpt]
                exact hgf
              have hgfwf : wfF gf = true := by
                have := wfB_of_lookupField y k _ hyv hy0
                rwa [wfB_obj] at this
              have habs2 : mergeAll gf (objFields (projAt k us)) = gf := by
                have h3 := hpt
                rw [hy0] at h3
                rw [chainVal_obj (projAt k us) hobj gf] at h3
                have h4 := Option.some.inj h3
                injection h4
              have husf : ∀ u ∈ objFields (projAt k us), wfF u = true := by
                intro u hu
                have hmem : Json.obj u ∈ projAt k us := mem_objFields _ u hu
                rw [mem_projAt] at hmem
                rcases hmem with ⟨uu, huu, hlk⟩
                have := wfB_of_lookupField uu k _ (husv uu huu) hlk
                rwa [wfB_obj] at this
              rw [hy0]
              show some (mergeValue (chainVal
                  (some (Json.obj (deep_merge gf vf))) (projAt k us))
                  (Json.obj vf)) =
                some (Json.obj (deep_merge gf vf))
              rw [chainVal_obj (projAt k us) hobj (deep_merge gf vf)]
              show some (Json.obj (deep_merge
                  (mergeAll (deep_merge gf vf) (objFields (projAt k us)))
                  vf)) =
                some (Json.obj (deep_merge gf vf))
              rw [ih vf hszvf (objFields (projAt k us)) gf hgfwf husf
                hvfwf habs2]
          · push_neg at hobj
            rcases hobj with ⟨p, hpm, hpf⟩
            have hpf2 : p.isObjB = false := by
              cases hb : p.isObjB with
              | true => exact absurd hb hpf
              | false => rfl
            have hconst := chainVal_const (projAt k us) ⟨p, hpm, hpf2⟩
              (some (mergeValue (lookupField y k) (Json.obj vf)))
              (lookupField y k)
            rw [hconst, hpt]

theorem lemA (v : List (String × Json))
    (us : List (List (String × Json))) (y : List (String × Json))
    (hy : wfF y = true) (hus : ∀ u ∈ us, wfF u = true)
    (hv : wfF v = true) (habs : mergeAll y us = y) :
    deep_merge (mergeAll (deep_merge y v) us) v = deep_merge y v :=
  lemA_aux (sizeOf v) v (Nat.le_refl _) us y hy hus hv habs

theorem applyOps_append (d1 d2 : List MergeOp) :
    ∀ x, applyOps x (d1 ++ d2) = applyOps (applyOps x d1) d2 := by
  induction d1 with
  | nil => intro x; rfl
  | cons op rest ih => intro x; exact ih (applyOp x op)

theorem wfF_applyOp (x : List (String × Json)) (op : MergeOp)
    (hx : wfF x = true) (hop : wfOp op = true) :
    wfF (applyOp x op) = true := by
  cases op with
  | append u => exact wfF_deep_merge x u hx hop
  | replace r => exact hop

theorem wfF_applyOps (d : List MergeOp) :
    ∀ x, wfF x = true → (∀ op ∈ d, wfOp op = true) →
      wfF (applyOps x d) = true := by
  induction d with
  | nil => intro x hx _; exact hx
  | cons op rest ih =>
    intro x hx hd
    exact ih (applyOp x op)
      (wfF_applyOp x op hx (hd op (List.mem_cons_self op rest)))
      (fun o ho => hd o (List.mem_cons_of_mem op ho))

theorem applyOps_reabsorb (d : List MergeOp) :
    ∀ (us : List (List (String × Json))) (y : List (String × Json)),
      wfF y = true → (∀ u ∈ us, wfF u = true) →
      (∀ op ∈ d, wfOp op = true) → mergeAll y us = y →
      applyOps (mergeAll (applyOps y d) us) d = applyOps y d := by
  induction d with
  | nil =>
    intro us y _ _ _ habs
    exact habs
  | cons op d2 ih =>
    intro us y hy hus hd habs
    cases op with
    | replace r => rfl
    | append V =>
      have hwfV : wfF V = true := hd (MergeOp.append V)
        (List.mem_cons_self _ d2)
      have habs2 : mergeAll (deep_merge y V) (us ++ [V]) =
          deep_merge y V := by
        rw [← mergeAll_append_one]
        exact lemA V us y hy hus hwfV habs
      have h := ih (us ++ [V]) (deep_merge y V)
        (wfF_deep_merge y V hy hwfV)
        (by
          intro u hu
          rcases List.mem_append.mp hu with hu | hu
          · exact hus u hu
          · rw [List.mem_singleton.mp hu]
            exact hwfV)
        (fun o ho => hd o (List.mem_cons_of_mem _ ho))
        habs2
      show applyOps (deep_merge
          (mergeAll (applyOps (deep_merge y V) d2) us) V) d2 =
        applyOps (deep_merge y V) d2
      rw [mergeAll_append_one]
      exact h

theorem applyOps_batch_idem (d : List MergeOp)
    (x : List (String × Json)) (hx : wfF x = true)
    (hd : ∀ op ∈ d, wfOp op = true) :
    applyOps (applyOps x d) d = applyOps x d :=
  applyOps_reabsorb d [] x hx (by intro u hu; simp at hu) hd rfl

theorem applyOps_suffix_idem (p d : List MergeOp)
    (x : List (String × Json)) (hx : wfF x = true)
    (hp : ∀ op ∈ p, wfOp op = true) (hd : ∀ op ∈ d, wfOp op = true) :
    applyOps x ((p ++ d) ++ d) = applyOps x (p ++ d) := by
  rw [applyOps_append (p ++ d) d, applyOps_append p d]
  exact applyOps_batch_idem d (applyOps x p)
    (wfF_applyOps p x hx hp) hd

theorem applyUserComment_envUserOp (dfs : List (String × Json))
    (op : MergeOp) (bf : List (String × Json))
    (h : envUserOp dfs = some op) :
    applyUserComment (Json.obj bf) dfs = some (Json.obj (applyOp bf op)) := by
  cases hd : lookupField dfs "_data" with
  | none =>
    simp only [envUserOp, hd] at h
    obtain rfl := Option.some.inj h
    simp only [applyUserComment, hd]
    rfl
  | some ud =>
    cases ud with
    | obj udf =>
      cases hm : lookupField dfs "_meta" with
      | none =>
        simp only [envUserOp, hd, hm] at h
        obtain rfl := Option.some.inj h
        simp only [applyUserComment, hd, hm]
        rfl
      | some mv =>
        cases mv with
        | obj mfs =>
          cases hmo : lookupField mfs "update_mode" with
          | none =>
            simp only [envUserOp, hd, hm, hmo] at h
            obtain rfl := Option.some.inj h
            simp only [applyUserComment, hd, hm, hmo]
            rfl
          | some mode =>
            cases mode with
            | str s =>
              simp only [envUserOp, hd, hm, hmo] at h
              by_cases hs : s = "append"
              · rw [if_pos hs] at h
                obtain rfl := Option.some.inj h
                simp only [applyUserComment, hd, hm, hmo, if_pos hs]
                rfl
              · by_cases hs2 : s = "replace"
                · rw [if_neg hs, if_pos hs2] at h
                  obtain rfl := Option.some.inj h
                  simp only [applyUserComment, hd, hm, hmo, if_neg hs,
                    if_pos hs2]
                  rfl
                · rw [if_neg hs, if_neg hs2] at h
                  exact Option.noConfusion h
            | null =>
              simp only [envUserOp, hd, hm, hmo] at h
              exact Option.noConfusion h
            | bool b =>
              simp only [envUserOp, hd, hm, hmo] at h
              exact Option.noConfusion h
            | num m =>
              simp only [envUserOp, hd, hm, hmo] at h
              exact Option.noConfusion h
            | arr xs =>
              simp only [envUserOp, hd, hm, hmo] at h
              exact Option.noConfusion h
            | obj ofs =>
              simp only [envUserOp, hd, hm, hmo] at h
              exact Option.noConfusion h
        | null => simp only [envUserOp, hd, hm] at h; exact Option.noConfusion h
        | bool b => simp only [envUserOp, hd, hm] at h; exact Option.noConfusion h
        | num m => simp only [envUserOp, hd, hm] at h; exact Option.noConfusion h
        | str s => simp only [envUserOp, hd, hm] at h; exact Option.noConfusion h
        | arr xs => simp only [envUserOp, hd, hm] at h; exact Option.noConfusion h
    | null => simp only [envUserOp, hd] at h; exact Option.noConfusion h
    | bool b => simp only [envUserOp, hd] at h; exact Option.noConfusion h
    | num m => simp only [envUserOp, hd] at h; exact Option.noConfusion h
    | str s => simp only [envUserOp, hd] at h; exact Option.noConfusion h
    | arr xs => simp only [envUserOp, hd] at h; exact Option.noConfusion h

theorem stepComment_envOp (e : Json) (op : MergeOp)
    (bf : List (String × Json)) (h : envOp e = some op) :
    stepComment (Json.obj bf) e = some (Json.obj (applyOp bf op)) := by
  cases e with
  | obj dfs =>
    cases ht : lookupField dfs "type" with
    | none =>
      simp only [envOp, ht] at h
      simp only [stepComment, ht]
      exact applyUserComment_envUserOp dfs op bf h
    | some tv =>
      cases tv with
      | str s =>
        simp only [envOp, ht] at h
        by_cases h1 : s = "initial_state"
        · rw [if_pos h1] at h
          exact Option.noConfusion h
        · rw [if_neg h1] at h
          by_cases h2 : s.startsWith "system_" = true
          · rw [if_pos h2] at h
            exact Option.noConfusion h
          · rw [if_neg h2] at h
            simp only [stepComment, ht, if_neg h1, if_neg h2]
            exact applyUserComment_envUserOp dfs op bf h
      | null => simp only [envOp, ht] at h; exact Option.noConfusion h
      | bool b => simp only [envOp, ht] at h; exact Option.noConfusion h
      | num m => simp only [envOp, ht] at h; exact Option.noConfusion h
      | arr xs => simp only [envOp, ht] at h; exact Option.noConfusion h
      | obj ofs => simp only [envOp, ht] at h; exact Option.noConfusion h
  | null => simp only [envOp] at h; exact Option.noConfusion h
  | bool b => simp only [envOp] at h; exact Option.noConfusion h
  | num m => simp only [envOp] at h; exact Option.noConfusion h
  | str s => simp only [envOp] at h; exact Option.noConfusion h
  | arr xs => simp only [envOp] at h; exact Option.noConfusion h

theorem applySeq_denote (s : List Json) :
    ∀ bf : List (String × Json), (∀ e ∈ s, (envOp e).isSome) →
      applySeq (Json.obj bf) s =
        some (Json.obj (applyOps bf (denoteOps s))) := by
  induction s with
  | nil => intro bf _; rfl
  | cons e rest ih =>
    intro bf hs
    have he : (envOp e).isSome := hs e (List.mem_cons_self e rest)
    obtain ⟨op, hop⟩ := Option.isSome_iff_exists.mp he
    rw [show applySeq (Json.obj bf) (e :: rest) =
      (match stepComment (Json.obj bf) e with
        | none => none
        | some s2 => applySeq s2 rest) from rfl]
    rw [stepComment_envOp e op bf hop]
    show applySeq (Json.obj (applyOp bf op)) rest = _
    rw [ih (applyOp bf op)
      (fun e2 h2 => hs e2 (List.mem_cons_of_mem _ h2))]
    have hden : denoteOps (e :: rest) = op :: denoteOps rest := by
      simp [denoteOps, List.filterMap_cons, hop]
    rw [hden]
    rfl

theorem wfOp_envUserOp (dfs : List (String × Json)) (op : MergeOp)
    (hwf : wfF dfs = true) (h : envUserOp dfs = some op) :
    wfOp op = true := by
  have hv : wfFieldsB dfs = true := ((wfF_iff dfs).mp hwf).2
  cases hd : lookupField dfs "_data" with
  | none =>
    simp only [envUserOp, hd] at h
    obtain rfl := Option.some.inj h
    exact hwf
  | some ud =>
    cases ud with
    | obj udf =>
      have hudf : wfF udf = true := by
        have := wfB_of_lookupField dfs "_data" _ hv hd
        rwa [wfB_obj] at this
      cases hm : lookupField dfs "_meta" with
      | none =>
        simp only [envUserOp, hd, hm] at h
        obtain rfl := Option.some.inj h
        exact hudf
      | some mv =>
        cases mv with
        | obj mfs =>
          cases hmo : lookupField mfs "update_mode" with
          | none =>
            simp only [envUserOp, hd, hm, hmo] at h
            obtain rfl := Option.some.inj h
            exact hudf
          | some mode =>
            cases mode with
            | str s =>
              simp only [envUserOp, hd, hm, hmo] at h
              by_cases hs : s = "append"
              · rw [if_pos hs] at h
                obtain rfl := Option.some.inj h
                exact hudf
              · by_cases hs2 : s = "replace"
                · rw [if_neg hs, if_pos hs2] at h
                  obtain rfl := Option.some.inj h
                  exact hudf
                · rw [if_neg hs, if_neg hs2] at h
                  exact Option.noConfusion h
            | null => simp only [envUserOp, hd, hm, hmo] at h; exact Option.noConfusion h
            | bool b => simp only [envUserOp, hd, hm, hmo] at h; exact Option.noConfusion h
            | num m => simp only [envUserOp, hd, hm, hmo] at h; exact Option.noConfusion h
            | arr xs => simp only [envUserOp, hd, hm, hmo] at h; exact Option.noConfusion h
            | obj ofs => simp only [envUserOp, hd, hm, hmo] at h; exact Option.noConfusion h
        | null => simp only [envUserOp, hd, hm] at h; exact Option.noConfusion h
        | bool b => simp only [envUserOp, hd, hm] at h; exact Option.noConfusion h
        | num m => simp only [envUserOp, hd, hm] at h; exact Option.noConfusion h
        | str s => simp only [envUserOp, hd, hm] at h; exact Option.noConfusion h
        | arr xs => simp only [envUserOp, hd, hm] at h; exact Option.noConfusion h
    | null => simp only [envUserOp, hd] at h; exact Option.noConfusion h
    | bool b => simp only [envUserOp, hd] at h; exact Option.noConfusion h
    | num m => simp only [envUserOp, hd] at h; exact Option.noConfusion h
    | str s => simp only [envUserOp, hd] at h; exact Option.noConfusion h
    | arr xs => simp only [envUserOp, hd] at h; exact Option.noConfusion h

theorem wfOp_envOp (e : Json) (op : MergeOp) (he : Json.wfB e = true)
    (h : envOp e = some op) : wfOp op = true := by
  cases e with
  | obj dfs =>
    have hwf : wfF dfs = true := by rwa [wfB_obj] at he
    cases ht : lookupField dfs "type" with
    | none =>
      simp only [envOp, ht] at h
      exact wfOp_envUserOp dfs op hwf h
    | some tv =>
      cases tv with
      | str s =>
        simp only [envOp, ht] at h
        by_cases h1 : s = "initial_state"
        · rw [if_pos h1] at h
          exact Option.noConfusion h
        · rw [if_neg h1] at h
          by_cases h2 : s.startsWith "system_" = true
          · rw [if_pos h2] at h
            exact Option.noConfusion h
          · rw [if_neg h2] at h
            exact wfOp_envUserOp dfs op hwf h
      | null => simp only [envOp, ht] at h; exact Option.noConfusion h
      | bool b => simp only [envOp, ht] at h; exact Option.noConfusion h
      | num m => simp only [envOp, ht] at h; exact Option.noConfusion h
      | arr xs => simp only [envOp, ht] at h; exact Option.noConfusion h
      | obj ofs => simp only [envOp, ht] at h; exact Option.noConfusion h
  | null => simp only [envOp] at h; exact Option.noConfusion h
  | bool b => simp only [envOp] at h; exact Option.noConfusion h
  | num m => simp only [envOp] at h; exact Option.noConfusion h
  | str s => simp only [envOp] at h; exact Option.noConfusion h
  | arr xs => simp only [envOp] at h; exact Option.noConfusion h

theorem wfOps_denoteOps (s : List Json)
    (hs : ∀ e ∈ s, Json.wfB e = true) :
    ∀ op ∈ denoteOps s, wfOp op = true := by
  intro op hop
  rw [denoteOps, List.mem_filterMap] at hop
  rcases hop with ⟨e, hes, henv⟩
  exact wfOp_envOp e op (hs e hes) henv

/-- Claim C1: for every base state B and append-mode update payload U
that are both JSON objects (with distinct keys, as for any parsed JSON
object), the merged state maps each key k of U to the recursive merge
of B[k] and U[k] when both are JSON objects and to U[k] wholesale
otherwise (arrays, scalars, mismatched kinds), and keeps B's value for
every key of B not present in U. -/
theorem claim_C1 (B U : List (String × Json))
    (hU : (fieldKeys U).Nodup) (k : String) :
    (k ∈ fieldKeys U →
      lookupField (deep_merge B U) k =
        match lookupField B k, lookupField U k with
        | some (Json.obj bf), some (Json.obj uf) =>
            some (Json.obj (deep_merge bf uf))
        | _, uv2 => uv2) ∧
    (k ∉ fieldKeys U → lookupField (deep_merge B U) k = lookupField B k) := by
  have h := lookupField_deep_merge U hU B k
  constructor
  · intro hk
    obtain ⟨uv, huv⟩ := lookupField_isSome_of_mem U k hk
    rw [h, huv]
    cases hb : lookupField B k with
    | some bv => cases bv <;> cases uv <;> rfl
    | none => cases uv <;> rfl
  · intro hk
    rw [h, lookupField_of_not_mem U k hk]

/-- Claim C1 witness: the merge of concrete base and update observed at
a key of the update and at a key only in the base. -/
theorem claim_C1_witness :
    lookupField (deep_merge [("a", Json.num 1), ("b", Json.num 2)]
      [("b", Json.num 3)]) "b" = some (Json.num 3) ∧
    lookupField (deep_merge [("a", Json.num 1), ("b", Json.num 2)]
      [("b", Json.num 3)]) "a" = some (Json.num 1) := by
  constructor
  · exact (claim_C1 [("a", Json.num 1), ("b", Json.num 2)]
      [("b", Json.num 3)] (by decide) "b").1 (by decide)
  · exact (claim_C1 [("a", Json.num 1), ("b", Json.num 2)]
      [("b", Json.num 3)] (by decide) "a").2 (by decide)

/-- Claim C2 counterexample: re-consuming a non-suffix subsequence is
not idempotent. With S = [set a to 1, set a to 2] and S_dup = [set a to
1] (a subsequence of S), replaying S leaves a = 2 but replaying
S ++ S_dup leaves a = 1, a different state. -/
theorem claim_C2_counterexample :
    [envA1].Sublist [envA1, envA2] ∧
    applySeq (Json.obj []) [envA1, envA2] =
      some (Json.obj [("a", Json.num 2)]) ∧
    applySeq (Json.obj []) ([envA1, envA2] ++ [envA1]) =
      some (Json.obj [("a", Json.num 1)]) ∧
    Json.obj [("a", Json.num 2)] ≠ Json.obj [("a", Json.num 1)] := by
  refine ⟨(List.nil_sublist [envA2]).cons₂ envA1, rfl, rfl, ?_⟩
  intro h
  simp at h

/-- Claim C2 (amended): replay is idempotent against re-consumption of
a suffix of the consumed sequence. For every well-formed object base
state B, every sequence S of valid envelopes (user envelopes in append
or replace mode whose payloads are JSON objects), and every suffix D of
S, replaying S followed by D yields the same state as replaying S
alone; in particular re-applying the last envelope, or the whole batch,
to the resulting state yields the same state. Re-consuming an arbitrary
(non-suffix) subsequence of S can alter the state. -/
theorem claim_C2 (B : List (String × Json)) (S D : List Json)
    (hB : wfF B = true)
    (hS : ∀ e ∈ S, Json.wfB e = true ∧ (envOp e).isSome)
    (hD : D.IsSuffix S) :
    applySeq (Json.obj B) (S ++ D) = applySeq (Json.obj B) S := by
  obtain ⟨P, hP⟩ := hD
  have hSome : ∀ e ∈ S, (envOp e).isSome := fun e he => (hS e he).2
  have hWf : ∀ e ∈ S, Json.wfB e = true := fun e he => (hS e he).1
  have hDsub : ∀ e ∈ D, e ∈ S := by
    intro e he
    rw [← hP]
    exact List.mem_append.mpr (Or.inr he)
  have hSDsome : ∀ e ∈ S ++ D, (envOp e).isSome := by
    intro e he
    rcases List.mem_append.mp he with he | he
    · exact hSome e he
    · exact hSome e (hDsub e he)
  rw [applySeq_denote (S ++ D) B hSDsome, applySeq_denote S B hSome]
  have hden : denoteOps (S ++ D) = denoteOps S ++ denoteOps D := by
    simp [denoteOps]
  have hden2 : denoteOps S = denoteOps P ++ denoteOps D := by
    rw [← hP]
    simp [denoteOps]
  rw [hden, hden2]
  have hwfP : ∀ op ∈ denoteOps P, wfOp op = true := by
    apply wfOps_denoteOps
    intro e he
    exact hWf e (by rw [← hP]; exact List.mem_append.mpr (Or.inl he))
  have hwfD : ∀ op ∈ denoteOps D, wfOp op = true :=
    wfOps_denoteOps D (fun e he => hWf e (hDsub e he))
  exact congrArg (fun x => some (Json.obj x))
    (applyOps_suffix_idem (denoteOps P) (denoteOps D) B hB hwfP hwfD)

/-- Claim C2 witness: re-applying the single consumed envelope to the
resulting state yields the same state. -/
theorem claim_C2_witness :
    applySeq (Json.obj []) ([envA1] ++ [envA1]) =
      applySeq (Json.obj []) [envA1] :=
  claim_C2 [] [envA1] [envA1] rfl
    (by
      intro e he
      rw [List.mem_singleton] at he
      subst he
      exact ⟨rfl, rfl⟩)
    ⟨[], rfl⟩

theorem insertByTs_perm (u : Update) (acc : List Update) :
    (insertByTs u acc).Perm (u :: acc) := by
  induction acc with
  | nil => exact List.Perm.refl _
  | cons v rest ih =>
    by_cases hv : v.timestamp ≤ u.timestamp
    · rw [show insertByTs u (v :: rest) = v :: insertByTs u rest from
        by simp [insertByTs, hv]]
      exact (ih.cons v).trans (List.Perm.swap u v rest)
    · rw [show insertByTs u (v :: rest) = u :: v :: rest from
        by simp [insertByTs, hv]]

theorem mem_insertByTs (u w : Update) (acc : List Update) :
    w ∈ insertByTs u acc ↔ w = u ∨ w ∈ acc := by
  rw [(insertByTs_perm u acc).mem_iff, List.mem_cons]

theorem pairwise_insertByTs (u : Update) (acc : List Update)
    (h : acc.Pairwise (fun a b => a.timestamp ≤ b.timestamp)) :
    (insertByTs u acc).Pairwise (fun a b => a.timestamp ≤ b.timestamp) := by
  induction acc with
  | nil => simp [insertByTs]
  | cons v rest ih =>
    rw [List.pairwise_cons] at h
    by_cases hv : v.timestamp ≤ u.timestamp
    · rw [show insertByTs u (v :: rest) = v :: insertByTs u rest from
        by simp [insertByTs, hv]]
      rw [List.pairwise_cons]
      constructor
      · intro w hw
        rcases (mem_insertByTs u w rest).mp hw with rfl | hw
        · exact hv
        · exact h.1 w hw
      · exact ih h.2
    · rw [show insertByTs u (v :: rest) = u :: v :: rest from
        by simp [insertByTs, hv]]
      rw [List.pairwise_cons]
      constructor
      · intro w hw
        rcases List.mem_cons.mp hw with rfl | hw
        · omega
        · have := h.1 w hw
          omega
      · exact List.pairwise_cons.mpr h

theorem filter_insertByTs (u : Update) (t : Nat) (acc : List Update)
    (h : acc.Pairwise (fun a b => a.timestamp ≤ b.timestamp)) :
    (insertByTs u acc).filter (fun v => decide (v.timestamp = t)) =
      if u.timestamp = t then
        acc.filter (fun v => decide (v.timestamp = t)) ++ [u]
      else acc.filter (fun v => decide (v.timestamp = t)) := by
  induction acc with
  | nil =>
    simp only [insertByTs, List.filter]
    by_cases hu : u.timestamp = t
    · simp [hu]
    · simp [hu]
  | cons v rest ih =>
    rw [List.pairwise_cons] at h
    by_cases hv : v.timestamp ≤ u.timestamp
    · rw [show insertByTs u (v :: rest) = v :: insertByTs u rest from
        by simp [insertByTs, hv]]
      rw [List.filter_cons, List.filter_cons, ih h.2]
      by_cases hu : u.timestamp = t
      · simp only [hu, if_true]
        by_cases hpv : v.timestamp = t
        · simp [hpv]
        · simp [hpv]
      · simp only [hu, if_false]
    · rw [show insertByTs u (v :: rest) = u :: v :: rest from
        by simp [insertByTs, hv]]
      rw [List.filter_cons]
      by_cases hu : u.timestamp = t
      · have hnone : (v :: rest).filter
            (fun w => decide (w.timestamp = t)) = [] := by
          rw [List.filter_eq_nil_iff]
          intro w hw
          rcases List.mem_cons.mp hw with rfl | hw
          · simp only [decide_eq_true_iff]
            omega
          · have := h.1 w hw
            simp only [decide_eq_true_iff]
            omega
        rw [hnone]
        simp [hu]
      · simp only [hu, decide_eq_false_iff_not]
        simp [hu]

theorem foldl_insert_pairwise (l : List Update) :
    ∀ acc : List Update,
      acc.Pairwise (fun a b => a.timestamp ≤ b.timestamp) →
      (l.foldl (fun acc u => insertByTs u acc) acc).Pairwise
        (fun a b => a.timestamp ≤ b.timestamp) := by
  induction l with
  | nil => intro acc h; exact h
  | cons u rest ih =>
    intro acc h
    exact ih (insertByTs u acc) (pairwise_insertByTs u acc h)

theorem foldl_insert_perm (l : List Update) :
    ∀ acc : List Update,
      (l.foldl (fun acc u => insertByTs u acc) acc).Perm (acc ++ l) := by
  induction l with
  | nil => intro acc; simp
  | cons u rest ih =>
    intro acc
    have h1 := ih (insertByTs u acc)
    have h2 : (insertByTs u acc ++ rest).Perm ((u :: acc) ++ rest) :=
      (insertByTs_perm u acc).append_right rest
    have h3 : ((u :: acc) ++ rest).Perm (acc ++ u :: rest) :=
      List.perm_middle.symm
    exact (h1.trans h2).trans h3

theorem foldl_insert_filter (l : List Update) (t : Nat) :
    ∀ acc : List Update,
      acc.Pairwise (fun a b => a.timestamp ≤ b.timestamp) →
      (l.foldl (fun acc u => insertByTs u acc) acc).filter
          (fun v => decide (v.timestamp = t)) =
        acc.filter (fun v => decide (v.timestamp = t)) ++
          l.filter (fun v => decide (v.timestamp = t)) := by
  induction l with
  | nil => intro acc _; simp
  | cons u rest ih =>
    intro acc h
    rw [show (u :: rest).foldl (fun acc u => insertByTs u acc) acc =
      rest.foldl (fun acc u => insertByTs u acc) (insertByTs u acc)
      from rfl]
    rw [ih (insertByTs u acc) (pairwise_insertByTs u acc h)]
    rw [filter_insertByTs u t acc h, List.filter_cons]
    by_cases hu : u.timestamp = t
    · simp [hu]
    · simp [hu]

theorem sortByTs_pairwise (l : List Update) :
    (sortByTs l).Pairwise (fun a b => a.timestamp ≤ b.timestamp) :=
  foldl_insert_pairwise l [] (List.Pairwise.nil)

theorem sortByTs_perm (l : List Update) : (sortByTs l).Perm l :=
  (foldl_insert_perm l []).trans (by simp)

theorem sortByTs_filter (l : List Update) (t : Nat) :
    (sortByTs l).filter (fun v => decide (v.timestamp = t)) =
      l.filter (fun v => decide (v.timestamp = t)) :=
  (foldl_insert_filter l t [] (List.Pairwise.nil)).trans (by simp)

/-- Claim C3 counterexample: timestamp ties are not broken by
(source_issue_number, comment_id) ascending. The anchor's comment
(issue 5, comment 10) and an alias's comment (issue 2, comment 7) share
one timestamp; the claimed tie-break puts the alias comment (2, 7)
first, but process_updates applies the anchor's comment first, because
the stable sort keeps the collection order: anchor comments before
alias comments. -/
theorem claim_C3_counterexample :
    cexUpdateAnchor.timestamp = cexUpdateAlias.timestamp ∧
    cexUpdateAlias.source_issue < cexUpdateAnchor.source_issue ∧
    canonicalProcessOrder [cexUpdateAnchor] [[cexUpdateAlias]] =
      [cexUpdateAnchor, cexUpdateAlias] ∧
    canonicalProcessOrder [cexUpdateAnchor] [[cexUpdateAlias]] ≠
      [cexUpdateAlias, cexUpdateAnchor] := by
  refine ⟨rfl, by decide, rfl, fun h => ?_⟩
  have h2 : cexUpdateAnchor :: [cexUpdateAlias] =
      cexUpdateAlias :: [cexUpdateAnchor] := h
  injection h2 with ha hb
  exact absurd (congrArg Update.comment_id ha) (by decide)

/-- Claim C3 (amended): within one process cycle on a canonical anchor,
the applied sequence is a permutation of all collected updates (anchor
updates in collection order, then each alias's updates in enumeration
order), it is non-decreasing in effective timestamp - so an update with
a strictly earlier timestamp is always applied before one with a
strictly later timestamp, whether each came from the anchor or an alias
- and updates sharing a timestamp keep their collection order (anchor
comments before alias comments), not the (source_issue_number,
comment_id) ascending order. -/
theorem claim_C3 (anchorUpdates : List Update)
    (aliasUpdates : List (List Update)) :
    (canonicalProcessOrder anchorUpdates aliasUpdates).Perm
      (anchorUpdates ++ aliasUpdates.flatten) ∧
    (canonicalProcessOrder anchorUpdates aliasUpdates).Pairwise
      (fun u v => u.timestamp ≤ v.timestamp) ∧
    ∀ t, (canonicalProcessOrder anchorUpdates aliasUpdates).filter
        (fun u => decide (u.timestamp = t)) =
      (anchorUpdates ++ aliasUpdates.flatten).filter
        (fun u => decide (u.timestamp = t)) :=
  ⟨sortByTs_perm _, sortByTs_pairwise _, fun t => sortByTs_filter _ t⟩

/-- Claim C4: for every object id whose anchor (an issue carrying the
base and uid labels) is in the open state, update(id, changes) raises
ConcurrentUpdate before posting anything: the tracker is returned
unchanged, so no new envelope comment exists. -/
theorem claim_C4 (t : Tracker) (object_id : String) (changes : Json)
    (h : (getIssues t ["stored-object", "UID:" ++ object_id]
      "open").isEmpty = false) :
    store_update t object_id changes =
      (t, Except.error StoreErr.concurrentUpdate) := by
  simp [store_update, h]

/-- Claim C4 witness: updating while the concrete anchor is open is
refused and leaves the tracker untouched. -/
theorem claim_C4_witness :
    store_update cexOpenAnchorT "x" Json.null =
      (cexOpenAnchorT, Except.error StoreErr.concurrentUpdate) :=
  claim_C4 cexOpenAnchorT "x" Json.null rfl

/-- Claim C5 (code-bug evidence): the issue creator "infiltrator" is
not authorized and the awaited validator result would be false, yet
process_updates neither raises AccessDenied nor leaves the body alone:
store.py calls the async validate_issue_creator without awaiting it,
the returned coroutine object is truthy, so the AccessDeniedError
branch is dead and the cycle completes, rewriting and closing the
anchor. The repository's own test
(tests/unit/test_security.py::test_unauthorized_issue_creator_denied)
expects AccessDeniedError here. -/
theorem claim_C5 :
    is_authorized cexEnv (some "infiltrator") = false ∧
    (validate_issue_creator cexEnv cexInfiltratorIssue).run = false ∧
    (validate_issue_creator cexEnv cexInfiltratorIssue).truthy = true ∧
    (process_updates cexEnv cexInfiltratorT 1 8).2 =
      Except.ok (StoredObject.mk (ObjectMeta.mk "x" "x" 50 60 1)
        (Json.obj [("v", Json.num 1)])) ∧
    (process_updates cexEnv cexInfiltratorT 1 8).2 ≠
      Except.error StoreErr.accessDenied ∧
    (getIssue (process_updates cexEnv cexInfiltratorT 1 8).1 1).map
        (fun i => i.state) = some "closed" := by
  refine ⟨rfl, rfl, rfl, rfl, ?_, rfl⟩
  intro h
  rw [show (process_updates cexEnv cexInfiltratorT 1 8).2 =
    Except.ok (StoredObject.mk (ObjectMeta.mk "x" "x" 50 60 1)
      (Json.obj [("v", Json.num 1)])) from rfl] at h
  exact Except.noConfusion h

/-- Claim C6 counterexample: a non-deprecated anchor for "x" exists
(without the canonical-object label), yet create("x", 5) succeeds and
adds a second anchor instead of failing with DuplicateUid. -/
theorem claim_C6_counterexample :
    ((getIssues cexDupT ["stored-object", "UID:x"] "all").filter
      (fun i => !(i.labels.any (fun l => l == "deprecated-object")))).isEmpty
        = false ∧
    (create_object cexDupT "x" (Json.num 5)).2 =
      Except.ok (createdObject cexDupT "x" (Json.num 5)) ∧
    (create_object cexDupT "x" (Json.num 5)).2 ≠
      Except.error StoreErr.duplicateUid ∧
    (create_object cexDupT "x" (Json.num 5)).1.issues.length = 2 := by
  refine ⟨rfl, rfl, ?_, rfl⟩
  intro h
  rw [show (create_object cexDupT "x" (Json.num 5)).2 =
    Except.ok (createdObject cexDupT "x" (Json.num 5)) from rfl] at h
  exact Except.noConfusion h

theorem isEmpty_filter_of_isEmpty (l : List GIssue) (p : GIssue → Bool)
    (h : l.isEmpty = true) : (l.filter p).isEmpty = true := by
  rw [List.isEmpty_iff] at h ⊢
  rw [h]
  rfl

/-- Claim C6 (amended): create(id, data) fails with DuplicateUid if and
only if a non-deprecated anchor carrying the canonical-object label
exists for the uid; otherwise it succeeds, creating exactly one new
anchor issue - even when non-deprecated, non-canonical anchors with the
same uid already exist. -/
theorem claim_C6 (t : Tracker) (object_id : String) (data : Json) :
    ((create_object t object_id data).2 =
        Except.error StoreErr.duplicateUid ↔
      (((getIssues t ["stored-object", "UID:" ++ object_id]
            "all").filter
          (fun i => !(i.labels.any (fun l => l == "deprecated-object")))).filter
        (fun i => i.labels.any (fun l => l == "canonical-object"))).isEmpty
          = false) ∧
    ((((getIssues t ["stored-object", "UID:" ++ object_id]
            "all").filter
          (fun i => !(i.labels.any (fun l => l == "deprecated-object")))).filter
        (fun i => i.labels.any (fun l => l == "canonical-object"))).isEmpty
          = true →
      (create_object t object_id data).1.issues =
        t.issues ++ [mkAnchorIssue t object_id data] ∧
      (create_object t object_id data).2 =
        Except.ok (createdObject t object_id data)) := by
  have hok : ∀ hco : create_object t object_id data =
      (Tracker.mk (t.issues ++ [mkAnchorIssue t object_id data]) t.now,
        Except.ok (createdObject t object_id data)),
      (((getIssues t ["stored-object", "UID:" ++ object_id]
            "all").filter
          (fun i => !(i.labels.any (fun l => l == "deprecated-object")))).filter
        (fun i => i.labels.any (fun l => l == "canonical-object"))).isEmpty
          = true →
      ((create_object t object_id data).2 =
          Except.error StoreErr.duplicateUid ↔
        (((getIssues t ["stored-object", "UID:" ++ object_id]
              "all").filter
            (fun i =>
              !(i.labels.any (fun l => l == "deprecated-object")))).filter
          (fun i => i.labels.any (fun l => l == "canonical-object"))).isEmpty
            = false) ∧
      ((((getIssues t ["stored-object", "UID:" ++ object_id]
              "all").filter
            (fun i =>
              !(i.labels.any (fun l => l == "deprecated-object")))).filter
          (fun i => i.labels.any (fun l => l == "canonical-object"))).isEmpty
            = true →
        (create_object t object_id data).1.issues =
          t.issues ++ [mkAnchorIssue t object_id data] ∧
        (create_object t object_id data).2 =
          Except.ok (createdObject t object_id data)) := by
    intro hco h3
    rw [hco]
    refine ⟨⟨fun habs => Except.noConfusion habs, fun habs => ?_⟩,
      fun _ => ⟨rfl, rfl⟩⟩
    rw [h3] at habs
    exact Bool.noConfusion habs
  by_cases h1 : (getIssues t ["stored-object", "UID:" ++ object_id]
      "all").isEmpty = true
  · have h3 := isEmpty_filter_of_isEmpty _
      (fun i => i.labels.any (fun l => l == "canonical-object"))
      (isEmpty_filter_of_isEmpty _
        (fun i => !(i.labels.any (fun l => l == "deprecated-object"))) h1)
    exact hok (by unfold create_object; rw [h1]; simp) h3
  · rw [Bool.not_eq_true] at h1
    by_cases h2 : ((getIssues t ["stored-object", "UID:" ++ object_id]
        "all").filter
        (fun i => !(i.labels.any (fun l =>
          l == "deprecated-object")))).isEmpty = true
    · have h3 := isEmpty_filter_of_isEmpty _
        (fun i => i.labels.any (fun l => l == "canonical-object")) h2
      exact hok (by unfold create_object; rw [h1, h2]; simp) h3
    · rw [Bool.not_eq_true] at h2
      by_cases h3 : (((getIssues t ["stored-object", "UID:" ++ object_id]
          "all").filter
          (fun i => !(i.labels.any (fun l =>
            l == "deprecated-object")))).filter
          (fun i => i.labels.any (fun l =>
            l == "canonical-object"))).isEmpty = true
      · exact hok (by unfold create_object; rw [h1, h2, h3]; simp) h3
      · rw [Bool.not_eq_true] at h3
        have hco : create_object t object_id data =
            (t, Except.error StoreErr.duplicateUid) := by
          unfold create_object
          rw [h1, h2, h3]
          simp
        rw [hco, h3]
        refine ⟨⟨fun _ => rfl, fun _ => rfl⟩, fun habs => ?_⟩
        exact Bool.noConfusion habs

/-- Claim C6 witness: with one non-canonical, non-deprecated anchor for
"x" present, create("x", 5) succeeds and appends exactly one new
anchor. -/
theorem claim_C6_witness :
    (create_object cexDupT "x" (Json.num 5)).1.issues =
      cexDupT.issues ++ [mkAnchorIssue cexDupT "x" (Json.num 5)] ∧
    (create_object cexDupT "x" (Json.num 5)).2 =
      Except.ok (createdObject cexDupT "x" (Json.num 5)) :=
  (claim_C6 cexDupT "x" (Json.num 5)).2 rfl

/-- Claim C7 counterexample: deleting the object "x" succeeds, closes
the anchor and adds the archived label, but the anchor still carries
the base label "stored-object" - the base label is not removed. -/
theorem claim_C7_counterexample :
    (delete_object cexDelT "x").2 = Except.ok () ∧
    (delete_object cexDelT "x").1.issues.map (fun i => i.labels) =
      [["archived", "stored-object", "x"]] ∧
    "stored-object" ∈ ["archived", "stored-object", "x"] ∧
    (delete_object cexDelT "x").1.issues.map (fun i => i.state) =
      ["closed"] :=
  ⟨rfl, rfl, by decide, rfl⟩

/-- Claim C7 (amended): for every object id whose anchor delete_object
finds (looking it up by the base label and the bare id label), after
delete(id) the anchor carries the archived label, retains the base
label and the bare id label, and is in the closed state. -/
theorem claim_C7 (t : Tracker) (object_id : String) (issue : GIssue)
    (rest : List GIssue)
    (h : getIssues t ["stored-object", object_id] "all" = issue :: rest) :
    (delete_object t object_id).2 = Except.ok () ∧
    ∀ i ∈ (delete_object t object_id).1.issues, i.number = issue.number →
      i.labels = ["archived", "stored-object", object_id] ∧
      i.state = "closed" := by
  have hD : delete_object t object_id =
      (editIssue t issue.number (fun i =>
        GIssue.mk i.number i.creator "closed"
          ["archived", "stored-object", object_id] i.body i.comments
          i.created_at i.updated_at),
        Except.ok ()) := by
    unfold delete_object
    rw [h]
  rw [hD]
  refine ⟨rfl, ?_⟩
  intro i hi hnum
  simp only [editIssue, List.mem_map] at hi
  rcases hi with ⟨orig, horig, heq⟩
  by_cases he : (orig.number == issue.number) = true
  · rw [if_pos he] at heq
    rw [← heq]
    exact ⟨rfl, rfl⟩
  · rw [if_neg he] at heq
    rw [← heq] at hnum
    exact absurd (beq_iff_eq.mpr hnum) he

/-- Claim C7 witness: deleting the concrete anchor leaves it archived,
still base-labelled, and closed. -/
theorem claim_C7_witness :
    (delete_object cexDelT "x").2 = Except.ok () ∧
    cexDelIssuePost.labels = ["archived", "stored-object", "x"] ∧
    cexDelIssuePost.state = "closed" := by
  have h := claim_C7 cexDelT "x" cexDelIssue [] rfl
  have hmem : cexDelIssuePost ∈ (delete_object cexDelT "x").1.issues := by
    rw [show (delete_object cexDelT "x").1.issues = [cexDelIssuePost]
      from rfl]
    exact List.mem_singleton.mpr rfl
  exact ⟨h.1, (h.2 cexDelIssuePost hmem rfl).1, (h.2 cexDelIssuePost hmem rfl).2⟩

theorem chainFrom_shift (t : Tracker) (a c : String)
    (h : aliasStep t a = some c) :
    ∀ k, chainFrom t a (k + 1) = chainFrom t c k := by
  intro k
  induction k with
  | zero => simp [chainFrom, h]
  | succ k ih =>
    show (match aliasStep t (chainFrom t a (k + 1)) with
      | some x => x
      | none => chainFrom t a (k + 1)) =
      (match aliasStep t (chainFrom t c k) with
        | some x => x
        | none => chainFrom t c k)
    rw [ih]

theorem resolve_reaches_chain (d : Nat) :
    ∀ (t : Tracker) (object_id : String), ∃ k ≤ d,
      resolve_canonical_object_id t object_id d =
        chainFrom t object_id k := by
  induction d with
  | zero => intro t object_id; exact ⟨0, Nat.le_refl 0, rfl⟩
  | succ d ih =>
    intro t object_id
    cases h : aliasStep t object_id with
    | none =>
      exact ⟨0, Nat.zero_le _,
        by simp [resolve_canonical_object_id, h, chainFrom]⟩
    | some c =>
      by_cases he : c = object_id
      · subst he
        exact ⟨0, Nat.zero_le _,
          by simp [resolve_canonical_object_id, h, chainFrom]⟩
      · obtain ⟨k, hk, heq⟩ := ih t c
        refine ⟨k + 1, Nat.succ_le_succ hk, ?_⟩
        rw [show resolve_canonical_object_id t object_id (d + 1) =
          resolve_canonical_object_id t c d from by
            simp [resolve_canonical_object_id, h, he]]
        rw [heq, chainFrom_shift t object_id c h k]

/-- Claim C8: resolveCanonical terminates for every label graph: on
exhausted depth (0) the current id is returned, a self-referential
ALIAS-TO label returns the current id immediately at any positive
depth, and for any depth d the result is always the id reached after
at most d alias hops - the last id reached - rather than an error. -/
theorem claim_C8 :
    (∀ (t : Tracker) (object_id : String),
      resolve_canonical_object_id t object_id 0 = object_id) ∧
    (∀ (t : Tracker) (object_id : String) (d : Nat),
      aliasStep t object_id = some object_id →
      resolve_canonical_object_id t object_id (d + 1) = object_id) ∧
    (∀ (t : Tracker) (object_id : String) (d : Nat), ∃ k ≤ d,
      resolve_canonical_object_id t object_id d =
        chainFrom t object_id k) := by
  refine ⟨fun t object_id => rfl, fun t object_id d h => ?_,
    fun t object_id d => resolve_reaches_chain d t object_id⟩
  simp [resolve_canonical_object_id, h]

/-- Claim C8 witness: on a concrete self-referential alias label graph,
resolution at the default depth 5 and at depth 0 returns the id. -/
theorem claim_C8_witness :
    aliasStep cexSelfLoopT "x" = some "x" ∧
    resolve_canonical_object_id cexSelfLoopT "x" 5 = "x" ∧
    resolve_canonical_object_id cexSelfLoopT "x" 0 = "x" :=
  ⟨rfl, claim_C8.2.1 cexSelfLoopT "x" 4 rfl, claim_C8.1 cexSelfLoopT "x"⟩

/-- Claim C9: every object returned by listUpdatedSince(t) has
updated_at strictly greater than t (the computed metadata of the loaded
object, re-checked after the query), and it comes from a closed,
base-labelled issue of the tracker that passed the since-query and
carries none of the labels archived, alias-object, deprecated-object -
whatever issues the tracker's since-query returns (the query result is
an arbitrary predicate, covering the case where only comment activity
postdates t). -/
theorem claim_C9 (t : Tracker) (sincePred : GIssue → Bool) (ts : Nat)
    (entry : String × StoredObject)
    (h : entry ∈ list_updated_since t sincePred ts) :
    ts < entry.2.meta.updated_at ∧
    ∃ issue ∈ t.issues, issue.state = "closed" ∧
      issue.labels.any (fun l => l == "stored-object") = true ∧
      sincePred issue = true ∧
      issue.labels.any (fun l =>
        l == "archived" || l == "alias-object" ||
          l == "deprecated-object") = false := by
  rw [list_updated_since, List.mem_filterMap] at h
  rcases h with ⟨issue, hmem, hsome⟩
  rw [List.mem_filter] at hmem
  obtain ⟨hin, hcond⟩ := hmem
  rw [Bool.and_eq_true, Bool.and_eq_true] at hcond
  obtain ⟨⟨hstate, hbase⟩, hsince⟩ := hcond
  cases hskip : issue.labels.any (fun l =>
      l == "archived" || l == "alias-object" ||
        l == "deprecated-object") with
  | true =>
    rw [if_pos hskip] at hsome
    exact Option.noConfusion hsome
  | false =>
    rw [if_neg (by rw [hskip]; exact Bool.noConfusion)] at hsome
    cases hid : get_object_id_from_labels issue with
    | none =>
      rw [hid] at hsome
      exact Option.noConfusion hsome
    | some object_id =>
      rw [hid] at hsome
      cases hobj : get_object_by_number t issue.number 32 with
      | none =>
        rw [hobj] at hsome
        exact Option.noConfusion hsome
      | some obj =>
        rw [hobj] at hsome
        have hsome2 : (if ts < obj.meta.updated_at
            then some (object_id, obj) else none) = some entry := hsome
        by_cases htime : ts < obj.meta.updated_at
        · rw [if_pos htime] at hsome2
          have hentry : entry = (object_id, obj) :=
            (Option.some.inj hsome2).symm
          subst hentry
          exact ⟨htime, issue, hin, beq_iff_eq.mp hstate, hbase, hsince,
            hskip⟩
        · rw [if_neg htime] at hsome2
          exact Option.noConfusion hsome2

/-- Claim C9 witness: on a concrete tracker the single returned object
has updated_at 60 > 50 and comes from a clean closed anchor. -/
theorem claim_C9_witness :
    50 < ("x", cexListObj).2.meta.updated_at ∧
    ∃ issue ∈ cexListT.issues, issue.state = "closed" ∧
      issue.labels.any (fun l => l == "stored-object") = true ∧
      (fun _ => true) issue = true ∧
      issue.labels.any (fun l =>
        l == "archived" || l == "alias-object" ||
          l == "deprecated-object") = false :=
  claim_C9 cexListT (fun _ => true) 50 ("x", cexListObj)
    (by
      rw [show list_updated_since cexListT (fun _ => true) 50 =
        [("x", cexListObj)] from rfl]
      exact List.mem_singleton.mpr rfl)

/-- Claim C10: the update payload posted by the public update surface
(IssueHandler.update_object and CanonicalStore.update_object both
construct it via updatePayload) always carries update_mode "append" and
a null type: the mode is never "replace", and the serialized envelope
has no "type" key at all, so replace-mode envelopes cannot enter the
log through the public update operation. -/
theorem claim_C10 (changes : Json) (now : String) :
    (updatePayload changes now)._meta.update_mode = "append" ∧
    (updatePayload changes now).type = none ∧
    (updatePayload changes now)._meta.update_mode ≠ "replace" ∧
    jsonGet (CommentPayload.to_dict (updatePayload changes now)) "type" =
      none := by
  refine ⟨rfl, rfl, ?_, rfl⟩
  intro h
  rw [show (updatePayload changes now)._meta.update_mode = "append"
    from rfl] at h
  exact absurd h (by decide)
